import Mathlib

/-!
Formal model of the CarbonExplorer feasibility-search and greedy-reallocation
engine (src/batteries and src/carbon_aware_scheduling).

Numeric values are modelled by exact rationals (ℚ).  Python `while` loops that
have no structural decreasing argument are modelled with an explicit `fuel`
parameter: every theorem below either holds for all fuel values or evaluates a
concrete run that terminates well within the supplied fuel.  Time series are
modelled as lists of rows (one row per hour) or as functions from the slot
index, matching how the source indexes its dataframes.
-/

attribute [local semireducible] Rat.add Rat.mul Rat.sub Rat.inv Rat.ofScientific

/-- Row of the aligned input dataframe: demand (`avg_dc_power_mw`),
renewable supply (`tot_renewable`) and carbon intensity columns. -/
structure Row where
  avg_dc_power_mw : ℚ
  tot_renewable : ℚ
  carbon_intensity : ℚ
  deriving DecidableEq, Repr, Inhabited

/-- Ideal battery model (class `Battery`, battery.py lines 8-42). -/
structure Battery where
  capacity : ℚ
  current_load : ℚ
  deriving DecidableEq, Repr

/-- Battery.charge (battery.py lines 18-22): add `input_load`, clamp above at
`capacity` (the source returns the new load; the new state is what matters
for the simulations, so the updated battery is returned). -/
def Battery.charge (b : Battery) (input_load : ℚ) : Battery :=
  let l := b.current_load + input_load
  if b.capacity < l then { b with current_load := b.capacity } else { b with current_load := l }

/-- Battery.discharge (battery.py lines 26-32): subtract `output_load`; if the
load would go negative, deliver only what was available and clamp at 0.
Returns (delivered amount, new state). -/
def Battery.discharge (b : Battery) (output_load : ℚ) : ℚ × Battery :=
  let l := b.current_load - output_load
  if l < 0 then (output_load + l, { b with current_load := 0 })
  else (output_load, { b with current_load := l })

/-- Battery.find_and_init_capacity (battery.py lines 41-42): grow capacity by
exactly `input_load`. -/
def Battery.find_and_init_capacity (b : Battery) (input_load : ℚ) : Battery :=
  { b with capacity := b.capacity + input_load }

/-- Rate-limited/efficiency battery model (class `Battery2`,
battery.py lines 50-170). -/
structure Battery2 where
  capacity : ℚ
  current_load : ℚ
  eff_c : ℚ
  eff_d : ℚ
  c_lim : ℚ
  d_lim : ℚ
  upper_lim_u : ℚ
  upper_lim_v : ℚ
  lower_lim_u : ℚ
  lower_lim_v : ℚ
  deriving DecidableEq, Repr

/-- Battery2 built with the constructor's default coefficients
(battery.py lines 77-100): eff_c=0.97, eff_d=1.04, c_lim=3, d_lim=3,
upper_u=-0.04, upper_v=1, lower_u=0.01, lower_v=0. -/
def Battery2.mkDefault (capacity current_load : ℚ) : Battery2 :=
  { capacity := capacity
    current_load := current_load
    eff_c := 97/100
    eff_d := 26/25
    c_lim := 3
    d_lim := 3
    upper_lim_u := -1/25
    upper_lim_v := 1
    lower_lim_u := 1/100
    lower_lim_v := 0 }

/-- Battery2.calc_max_charge (battery.py lines 102-113).  The source divides
directly by `eff_c * T_u - upper_lim_u` with no degeneracy check; with the
coefficients used by the simulations this denominator is nonzero, so total
rational division is a faithful model there. -/
def Battery2.calc_max_charge (b : Battery2) (T_u : ℚ) : ℚ :=
  min ((b.capacity / b.eff_c) * b.c_lim)
    ((b.upper_lim_v * b.capacity - b.current_load) / (b.eff_c * T_u - b.upper_lim_u))

/-- Battery2.calc_max_discharge (battery.py lines 115-126); again the source
divides by `lower_lim_u + eff_d * T_u` without any degeneracy check. -/
def Battery2.calc_max_discharge (b : Battery2) (T_u : ℚ) : ℚ :=
  min ((b.capacity / b.eff_d) * b.d_lim)
    ((b.current_load - b.lower_lim_v * b.capacity) / (b.lower_lim_u + b.eff_d * T_u))

/-- Battery2.charge (battery.py lines 130-135). -/
def Battery2.charge (b : Battery2) (input_load T_u : ℚ) : Battery2 :=
  let max_charge := b.calc_max_charge T_u
  { b with current_load := b.current_load + min max_charge input_load * b.eff_c * T_u }

/-- Battery2.discharge (battery.py lines 139-146): returns (delivered energy
over T_u hours, new state); reports the rate-limited amount when the limit
binds. -/
def Battery2.discharge (b : Battery2) (output_load T_u : ℚ) : ℚ × Battery2 :=
  let max_discharge := b.calc_max_discharge T_u
  let b' := { b with
    current_load := b.current_load - min max_discharge output_load * b.eff_d * T_u }
  if max_discharge < output_load then (max_discharge * T_u, b') else (output_load * T_u, b')

/-- Micro-step loop of `_sim_battery_247` for the ideal battery
(battery_methods/binary_search.py lines 20-32): apply the hour's net power
`count` times, accumulating the delivered discharge. -/
def sim_hour_b1 : ℕ → Battery → ℚ → ℚ → ℚ × Battery
  | 0, b, _, acc => (acc, b)
  | n + 1, b, net_load, acc =>
    if 0 < net_load then sim_hour_b1 n (b.charge net_load) net_load acc
    else
      let r := b.discharge (-net_load)
      sim_hour_b1 n r.2 net_load (acc + r.1)

/-- Micro-step loop of `_sim_battery_247` for Battery2 (same lines, with
T_u = 1/60). -/
def sim_hour_b2 : ℕ → Battery2 → ℚ → ℚ → ℚ × Battery2
  | 0, b, _, acc => (acc, b)
  | n + 1, b, net_load, acc =>
    if 0 < net_load then sim_hour_b2 n (b.charge net_load (1/60)) net_load acc
    else
      let r := b.discharge (-net_load) (1/60)
      sim_hour_b2 n r.2 net_load (acc + r.1)

/-- Feasibility oracle `_sim_battery_247` (battery_methods/binary_search.py
lines 10-38), ideal-battery branch: true iff every hour with a deficit gets
its deficit covered up to the 1e-4 tolerance; terminates early on failure. -/
def sim_battery_247_b1 : List Row → Battery → Bool
  | [], _ => true
  | r :: rest, b =>
    let net_load := r.tot_renewable - r.avg_dc_power_mw
    let s := sim_hour_b1 60 b net_load 0
    if net_load < 0 ∧ s.1 < -net_load - 1/10000 then false
    else sim_battery_247_b1 rest s.2

/-- Feasibility oracle `_sim_battery_247`, Battery2 branch. -/
def sim_battery_247_b2 : List Row → Battery2 → Bool
  | [], _ => true
  | r :: rest, b =>
    let net_load := r.tot_renewable - r.avg_dc_power_mw
    let s := sim_hour_b2 60 b net_load 0
    if net_load < 0 ∧ s.1 < -net_load - 1/10000 then false
    else sim_battery_247_b2 rest s.2

/-- Bisection loop shared by the four `_calculate_247_battery_capacity_*_bin`
and `*_hybrid` functions: `while u - l > 0.1` halve towards the smallest
feasible capacity.  `fuel` bounds the number of iterations of the source's
while loop; on exhaustion the current (l, u) pair is returned, and every
theorem about this loop holds for all fuel values. -/
def bisect_capacity (feasible : ℚ → Bool) : ℕ → ℚ → ℚ → ℚ × ℚ
  | 0, l, u => (l, u)
  | fuel + 1, l, u =>
    if 1/10 < u - l then
      let med := (u + l) / 2
      if feasible med then bisect_capacity feasible fuel l med
      else bisect_capacity feasible fuel med u
    else (l, u)

/-- Exponential phase of the hybrid capacity searches
(capacity_calculations/hybrid_search.py lines 25-29 and 62-66):
double the upper bound until it is feasible or exceeds max_bsize. -/
def expo_capacity (feasible : ℚ → Bool) (max_bsize : ℚ) : ℕ → ℚ → ℚ → ℚ × ℚ
  | 0, l, u => (l, u)
  | fuel + 1, l, u =>
    if u < max_bsize ∧ ¬feasible u then expo_capacity feasible max_bsize fuel u (u * 2)
    else (l, u)

/-- `_calculate_247_battery_capacity_b1_bin` (battery_methods/binary_search.py
lines 64-82).  `none` models the `np.nan` sentinel. -/
def calculate_247_battery_capacity_b1_bin (df_ren_dc : List Row) (max_bsize : ℚ)
    (fuel : ℕ) : Option ℚ :=
  if sim_battery_247_b1 df_ren_dc ⟨0, 0⟩ then some 0
  else
    let u := (bisect_capacity
      (fun med => sim_battery_247_b1 df_ren_dc ⟨med, med⟩) fuel 0 max_bsize).2
    if u = max_bsize then none else some u

/-- `_calculate_247_battery_capacity_b2_bin` (battery_methods/binary_search.py
lines 42-60). -/
def calculate_247_battery_capacity_b2_bin (df_ren_dc : List Row) (max_bsize : ℚ)
    (fuel : ℕ) : Option ℚ :=
  if sim_battery_247_b2 df_ren_dc (Battery2.mkDefault 0 0) then some 0
  else
    let u := (bisect_capacity
      (fun med => sim_battery_247_b2 df_ren_dc (Battery2.mkDefault med med)) fuel 0 max_bsize).2
    if u = max_bsize then none else some u

/-- `_calculate_247_battery_capacity_b1_hybrid`
(capacity_calculations/hybrid_search.py lines 13-47): exponential doubling
from seed upper bound 2.0, cap at max_bsize, sentinel if still infeasible,
else binary refinement. -/
def calculate_247_battery_capacity_b1_hybrid (df_ren_dc : List Row) (max_bsize : ℚ)
    (fuel : ℕ) : Option ℚ :=
  let feasible := fun c => sim_battery_247_b1 df_ren_dc ⟨c, c⟩
  if feasible 0 then some 0
  else
    let p := expo_capacity feasible max_bsize fuel 0 2
    let ub := if max_bsize < p.2 then max_bsize else p.2
    if ¬feasible ub then none
    else some (bisect_capacity feasible fuel p.1 ub).2

/-- `_calculate_247_battery_capacity_b2_hybrid`
(capacity_calculations/hybrid_search.py lines 50-84): same with seed upper
bound 1.0 and Battery2. -/
def calculate_247_battery_capacity_b2_hybrid (df_ren_dc : List Row) (max_bsize : ℚ)
    (fuel : ℕ) : Option ℚ :=
  let feasible := fun c => sim_battery_247_b2 df_ren_dc (Battery2.mkDefault c c)
  if feasible 0 then some 0
  else
    let p := expo_capacity feasible max_bsize fuel 0 1
    let ub := if max_bsize < p.2 then max_bsize else p.2
    if ¬feasible ub then none
    else some (bisect_capacity feasible fuel p.1 ub).2

/-- Inner 60-step loop of `apply_battery` (battery_utils.py lines 74-82).
State: (battery, accumulated discharged amount, current value of the
caller's df_ren cell for this hour).  The hour's `gap` is fixed before the
loop, exactly as in the source. -/
def apply_battery_hour : ℕ → Battery2 → ℚ → ℚ → ℚ → ℚ × ℚ × Battery2
  | 0, b, _, discharged, ren_i => (discharged, ren_i, b)
  | j + 1, b, gap, discharged, ren_i =>
    if 0 < gap then
      let r := b.discharge gap (1/60)
      apply_battery_hour j r.2 gap (discharged + r.1) ren_i
    else
      apply_battery_hour j (b.charge (-gap) (1/60)) gap discharged (ren_i + gap * (1/60))

/-- Hour-by-hour loop of `apply_battery` (battery_utils.py lines 69-89).
The renewable series is threaded through and updated in place because the
source writes `df_ren.iloc[i] += ...` on the caller's dataframe. -/
def apply_battery_loop (df_dc_pow : ℕ → ℚ) : ℕ → ℕ → Battery2 → ℚ → (ℕ → ℚ) → ℚ × (ℕ → ℚ)
  | _, 0, _, tot_non_ren_mw, df_ren => (tot_non_ren_mw, df_ren)
  | i, remaining + 1, b, tot_non_ren_mw, df_ren =>
    let ren_mw := df_ren i
    let df_dc := df_dc_pow i
    let gap := df_dc - ren_mw
    let s := apply_battery_hour 60 b gap 0 ren_mw
    let df_ren' := Function.update df_ren i s.2.1
    if 0 < gap then
      apply_battery_loop df_dc_pow (i + 1) remaining s.2.2
        (tot_non_ren_mw + gap - s.1) (Function.update df_ren' i (s.2.1 + s.1))
    else
      apply_battery_loop df_dc_pow (i + 1) remaining s.2.2 tot_non_ren_mw df_ren'

/-- `apply_battery` (battery_utils.py lines 64-90) on series of length `n`.
Returns (tot_non_ren_mw, final contents of df_ren).  The source never copies
`df_ren`: the second component is simultaneously the returned series and the
caller's input series after the call (mutated in place). -/
def apply_battery (battery_capacity : ℚ) (df_ren df_dc_pow : ℕ → ℚ) (n : ℕ) :
    ℚ × (ℕ → ℚ) :=
  apply_battery_loop df_dc_pow 0 n (Battery2.mkDefault battery_capacity battery_capacity) 0 df_ren

/-- Contents of the caller's `df_ren` series after `apply_battery` returns.
In the source every write inside `apply_battery` targets `df_ren.iloc[i]` of
the argument dataframe itself (battery_utils.py lines 80, 85), so the input
object after the call holds exactly the returned adjusted series. -/
def apply_battery_input_after (battery_capacity : ℚ) (df_ren df_dc_pow : ℕ → ℚ)
    (n : ℕ) : ℕ → ℚ :=
  (apply_battery battery_capacity df_ren df_dc_pow n).2

/-- The `while True` refinement loop of `Battery2.find_and_init_capacity`
(battery.py lines 162-170).  The source has no iteration cap; `fuel` makes
the recursion well founded, and `none` means the loop is still running after
`fuel` iterations (so `∀ fuel, ... = none` states nontermination). -/
def find_and_init_capacity_loop (lower_lim_u lower_lim_v eff_d input_load : ℚ) :
    ℕ → ℚ → ℚ → Option ℚ
  | 0, _, _ => none
  | fuel + 1, capacity, new_capacity =>
    let power_lim := (new_capacity - lower_lim_v * capacity) / (lower_lim_u + eff_d)
    if power_lim < input_load then
      find_and_init_capacity_loop lower_lim_u lower_lim_v eff_d input_load fuel
        (capacity + 1/10) (new_capacity + 1/10)
    else some capacity

/-- Battery2.find_and_init_capacity (battery.py lines 155-170): grow capacity
by `input_load * eff_d`, then refine until the discharge rate limit at the new
capacity can deliver `input_load`; `none` when the unbounded source loop has
not exited within `fuel` iterations. -/
def Battery2.find_and_init_capacity (b : Battery2) (input_load : ℚ) (fuel : ℕ) :
    Option Battery2 :=
  let capacity := b.capacity + input_load * b.eff_d
  match find_and_init_capacity_loop b.lower_lim_u b.lower_lim_v b.eff_d input_load fuel
      capacity (input_load * b.eff_d) with
  | none => none
  | some c => some { b with capacity := c }

/-- Python `max(...)` over a nonempty list ( [] gives 0, never hit by the
call sites, which pass lists built from a day window). -/
def list_max : List ℚ → ℚ
  | [] => 0
  | x :: xs => xs.foldl max x

/-- Python `min(...)` over a nonempty list. -/
def list_min : List ℚ → ℚ
  | [] => 0
  | x :: xs => xs.foldl min x

/-- Python `list.sort(key=..., reverse=True)` on (index, value) pairs:
sort by the second component, descending. -/
def sort_desc_snd (l : List (ℕ × ℚ)) : List (ℕ × ℚ) :=
  l.insertionSort (fun a b => b.2 ≤ a.2)

/-- Per-slot renewable deficit list `[(j, max(0, demand - renewable))]`
(cas_methods/binary_search.py lines 35-41, hybrid_search.py lines 18-24). -/
def renewable_deficit_list (dem ren : ℕ → ℚ) (n : ℕ) : List (ℕ × ℚ) :=
  (List.range n).map (fun j => (j, max 0 (dem j - ren j)))

/-- Inner recipient loop of the renewable-objective binary pour
(cas_methods/binary_search.py lines 84-104): walk `surplus_hours`, recomputing
each recipient's headroom `min(ren - dem, max_capacity - dem)` from the
current window, skip non-positive headroom, move
`min(movable, available_space)`, and stop once `movable ≤ 0`.
Returns (new demand, remaining movable, total moved). -/
def pour_inner_ren_bin (ren : ℕ → ℚ) (max_capacity : ℚ) (from_idx : ℕ) :
    List ℕ → ℚ → ℚ → (ℕ → ℚ) → (ℕ → ℚ) × ℚ × ℚ
  | [], movable, moved, dem => (dem, movable, moved)
  | to_idx :: rest, movable, moved, dem =>
    let available_space := min (ren to_idx - dem to_idx) (max_capacity - dem to_idx)
    if available_space ≤ 0 then pour_inner_ren_bin ren max_capacity from_idx rest movable moved dem
    else
      let amount_to_move := min movable available_space
      if amount_to_move ≤ 0 then pour_inner_ren_bin ren max_capacity from_idx rest movable moved dem
      else
        let dem₁ := Function.update dem from_idx (dem from_idx - amount_to_move)
        let dem₂ := Function.update dem₁ to_idx (dem₁ to_idx + amount_to_move)
        let movable' := movable - amount_to_move
        let moved' := moved + amount_to_move
        if movable' ≤ 0 then (dem₂, movable', moved')
        else pour_inner_ren_bin ren max_capacity from_idx rest movable' moved' dem₂

/-- Donor loop of the renewable-objective binary pour
(cas_methods/binary_search.py lines 72-104): stop when the global target is
reached, else give each donor `min(dem * ratio/100, target - moved)`.
Returns (new demand, total moved). -/
def pour_outer_ren_bin (ren : ℕ → ℚ) (flexible_workload_ratio max_capacity total_movable : ℚ)
    (surplus_hours : List ℕ) : List ℕ → ℚ → (ℕ → ℚ) → (ℕ → ℚ) × ℚ
  | [], moved, dem => (dem, moved)
  | from_idx :: rest, moved, dem =>
    if total_movable ≤ moved then (dem, moved)
    else
      let movable := min (dem from_idx * flexible_workload_ratio / 100) (total_movable - moved)
      let r := pour_inner_ren_bin ren max_capacity from_idx surplus_hours movable moved dem
      pour_outer_ren_bin ren flexible_workload_ratio max_capacity total_movable surplus_hours
        rest r.2.2 r.1

/-- Inner recipient loop of the grid-mix binary pour
(cas_methods/binary_search.py lines 176-201): headroom is
`max_capacity - dem` only; also accumulates the carbon reduction.
Returns (new demand, remaining movable, total moved, carbon reduced). -/
def pour_inner_grid_bin (ci : ℕ → ℚ) (max_capacity : ℚ) (from_idx : ℕ) :
    List ℕ → ℚ → ℚ → ℚ → (ℕ → ℚ) → (ℕ → ℚ) × ℚ × ℚ × ℚ
  | [], movable, moved, carbon_reduced, dem => (dem, movable, moved, carbon_reduced)
  | to_idx :: rest, movable, moved, carbon_reduced, dem =>
    let available_space := max_capacity - dem to_idx
    if available_space ≤ 0 then
      pour_inner_grid_bin ci max_capacity from_idx rest movable moved carbon_reduced dem
    else
      let amount_to_move := min movable available_space
      if amount_to_move ≤ 0 then
        pour_inner_grid_bin ci max_capacity from_idx rest movable moved carbon_reduced dem
      else
        let carbon_delta := amount_to_move * (ci from_idx - ci to_idx)
        let dem₁ := Function.update dem from_idx (dem from_idx - amount_to_move)
        let dem₂ := Function.update dem₁ to_idx (dem₁ to_idx + amount_to_move)
        let movable' := movable - amount_to_move
        if movable' ≤ 0 then (dem₂, movable', moved + amount_to_move, carbon_reduced + carbon_delta)
        else pour_inner_grid_bin ci max_capacity from_idx rest movable' (moved + amount_to_move)
          (carbon_reduced + carbon_delta) dem₂

/-- Donor loop of the grid-mix binary pour (cas_methods/binary_search.py
lines 165-201). Returns (new demand, total moved, carbon reduced). -/
def pour_outer_grid_bin (ci : ℕ → ℚ) (flexible_workload_ratio max_capacity total_movable : ℚ)
    (to_hours : List ℕ) : List ℕ → ℚ → ℚ → (ℕ → ℚ) → (ℕ → ℚ) × ℚ × ℚ
  | [], moved, carbon_reduced, dem => (dem, moved, carbon_reduced)
  | from_idx :: rest, moved, carbon_reduced, dem =>
    if total_movable ≤ moved then (dem, moved, carbon_reduced)
    else
      let movable := min (dem from_idx * flexible_workload_ratio / 100) (total_movable - moved)
      let r := pour_inner_grid_bin ci max_capacity from_idx to_hours movable moved carbon_reduced dem
      pour_outer_grid_bin ci flexible_workload_ratio max_capacity total_movable to_hours
        rest r.2.2.1 r.2.2.2 r.1

/-- Python `recipient_hours[recipient_hours.index(old)] = new`: replace the
first occurrence of `old` (value equality on the pair). -/
def replace_first : List (ℕ × ℚ) → (ℕ × ℚ) → (ℕ × ℚ) → List (ℕ × ℚ)
  | [], _, _ => []
  | x :: xs, old, new => if x = old then new :: xs else x :: replace_first xs old new

/-- Inner recipient loop shared verbatim by the two hybrid pours
(cas_methods/hybrid_search.py lines 109-129 and 241-262): iterate the live
`recipient_hours` list by position (`k` is the position, `remaining` the
positions left), use the stored remaining headroom, decrement it through
`replace_first`, and stop once the donor's movable allowance is exhausted.
Returns (updated recipient list, new demand). -/
def pour_inner_hyb (from_idx : ℕ) :
    ℕ → ℕ → List (ℕ × ℚ) → ℚ → (ℕ → ℚ) → List (ℕ × ℚ) × (ℕ → ℚ)
  | _, 0, recipient_hours, _, dem => (recipient_hours, dem)
  | k, remaining + 1, recipient_hours, movable, dem =>
    match recipient_hours[k]? with
    | none => (recipient_hours, dem)
    | some rc =>
      if rc.2 ≤ 0 then pour_inner_hyb from_idx (k + 1) remaining recipient_hours movable dem
      else
        let amount_to_move := min movable rc.2
        if amount_to_move ≤ 0 then
          pour_inner_hyb from_idx (k + 1) remaining recipient_hours movable dem
        else
          let dem₁ := Function.update dem from_idx (dem from_idx - amount_to_move)
          let dem₂ := Function.update dem₁ rc.1 (dem₁ rc.1 + amount_to_move)
          let recips' := replace_first recipient_hours rc (rc.1, rc.2 - amount_to_move)
          let movable' := movable - amount_to_move
          if movable' ≤ 0 then (recips', dem₂)
          else pour_inner_hyb from_idx (k + 1) remaining recips' movable' dem₂

/-- Donor loop of the renewable-objective hybrid pour
(cas_methods/hybrid_search.py lines 98-129): each donor may give
`min(surplus, ratio/100 * its current demand)`; donors with non-positive
allowance are skipped. -/
def pour_outer_ren_hyb (flexible_workload_ratio : ℚ) :
    List (ℕ × ℚ) → List (ℕ × ℚ) → (ℕ → ℚ) → List (ℕ × ℚ) × (ℕ → ℚ)
  | [], recipient_hours, dem => (recipient_hours, dem)
  | d :: rest, recipient_hours, dem =>
    let movable := min d.2 (flexible_workload_ratio / 100 * dem d.1)
    if movable ≤ 0 then pour_outer_ren_hyb flexible_workload_ratio rest recipient_hours dem
    else
      let r := pour_inner_hyb d.1 0 recipient_hours.length recipient_hours movable dem
      pour_outer_ren_hyb flexible_workload_ratio rest r.1 r.2

/-- Donor loop of the grid-mix hybrid pour (cas_methods/hybrid_search.py
lines 230-262): each donor may give `ratio/100 * its current demand` (no
surplus bound and no global target in this variant). -/
def pour_outer_grid_hyb (flexible_workload_ratio : ℚ) :
    List (ℕ × ℚ) → List (ℕ × ℚ) → (ℕ → ℚ) → List (ℕ × ℚ) × (ℕ → ℚ)
  | [], recipient_hours, dem => (recipient_hours, dem)
  | d :: rest, recipient_hours, dem =>
    let movable := flexible_workload_ratio / 100 * dem d.1
    if movable ≤ 0 then pour_outer_grid_hyb flexible_workload_ratio rest recipient_hours dem
    else
      let r := pour_inner_hyb d.1 0 recipient_hours.length recipient_hours movable dem
      pour_outer_grid_hyb flexible_workload_ratio rest r.1 r.2

/-- One binary-threshold trial of `cas_binary` on a day window of `n` slots
(cas_methods/binary_search.py lines 35-104) at threshold `mid`: donors are the
slots with renewable deficit above `mid` in descending-deficit order,
recipients the remaining slots in descending pre-pour `ren - dem` order.
Returns (new demand, total moved). -/
def cas_binary_day_pour (dem ren : ℕ → ℚ) (n : ℕ)
    (flexible_workload_ratio max_capacity mid : ℚ) : (ℕ → ℚ) × ℚ :=
  let renewable_deficit := sort_desc_snd (renewable_deficit_list dem ren n)
  let total_movable := ((List.range n).map dem).sum * flexible_workload_ratio / 100
  let deficit_hours := renewable_deficit.filterMap
    (fun p => if mid < p.2 then some p.1 else none)
  let surplus_hours := ((List.range n).filter (fun j => !(deficit_hours.contains j))).insertionSort
    (fun a b => ren b - dem b ≤ ren a - dem a)
  pour_outer_ren_bin ren flexible_workload_ratio max_capacity total_movable surplus_hours
    deficit_hours 0 dem

/-- One binary-threshold trial of `binary_cas_grid_mix` on a day window
(cas_methods/binary_search.py lines 128-201) at offset `mid`: the cutoff is
`min carbon intensity + mid`; donors are slots above it (descending
intensity), recipients those at or below it (ascending intensity).
Returns (new demand, total moved, carbon reduced). -/
def binary_cas_grid_mix_day_pour (dem ci : ℕ → ℚ) (n : ℕ)
    (flexible_workload_ratio max_capacity mid : ℚ) : (ℕ → ℚ) × ℚ × ℚ :=
  let hourly_carbon := sort_desc_snd ((List.range n).map (fun j => (j, ci j)))
  let total_movable := ((List.range n).map dem).sum * flexible_workload_ratio / 100
  let carbon_threshold := list_min (hourly_carbon.map Prod.snd) + mid
  let from_hours := hourly_carbon.filterMap
    (fun p => if carbon_threshold < p.2 then some p.1 else none)
  let to_hours := (hourly_carbon.filterMap
    (fun p => if p.2 ≤ carbon_threshold then some p.1 else none)).insertionSort
      (fun a b => ci a ≤ ci b)
  pour_outer_grid_bin ci flexible_workload_ratio max_capacity total_movable to_hours
    from_hours 0 0 dem

/-- Greedy pour of `cas_hybrid` on a day window at cutoff `final_threshold`
(cas_methods/hybrid_search.py lines 70-129): donors `(j, deficit - cutoff)`
for slots above the cutoff (descending surplus), recipients
`(j, min(ren - dem, max_capacity - dem))` for the rest with positive headroom
(descending headroom), headroom captured from the pre-pour window and
decremented in place during the pour.  Returns (new demand, final recipient
list). -/
def cas_hybrid_day_pour (dem ren : ℕ → ℚ) (n : ℕ)
    (flexible_workload_ratio max_capacity final_threshold : ℚ) :
    List (ℕ × ℚ) × (ℕ → ℚ) :=
  let donor_hours := sort_desc_snd ((List.range n).filterMap (fun j =>
    let deficit := max 0 (dem j - ren j)
    if final_threshold < deficit then some (j, deficit - final_threshold) else none))
  let recipient_hours := sort_desc_snd ((List.range n).filterMap (fun j =>
    let deficit := max 0 (dem j - ren j)
    if final_threshold < deficit then none
    else
      let capacity := min (ren j - dem j) (max_capacity - dem j)
      if 0 < capacity then some (j, capacity) else none))
  pour_outer_ren_hyb flexible_workload_ratio donor_hours recipient_hours dem

/-- Greedy pour of `hybrid_cas_grid_mix` on a day window at cutoff
`final_threshold` (cas_methods/hybrid_search.py lines 210-262): donors
`(j, carbon_intensity)` for slots above the cutoff (descending intensity),
recipients `(j, max_capacity - dem)` for the rest with positive headroom
(ascending intensity). -/
def hybrid_cas_grid_mix_day_pour (dem ci : ℕ → ℚ) (n : ℕ)
    (flexible_workload_ratio max_capacity final_threshold : ℚ) :
    List (ℕ × ℚ) × (ℕ → ℚ) :=
  let donor_hours := sort_desc_snd ((List.range n).filterMap (fun j =>
    if final_threshold < ci j then some (j, ci j) else none))
  let recipient_hours := ((List.range n).filterMap (fun j =>
    if final_threshold < ci j then none
    else
      let capacity := max_capacity - dem j
      if 0 < capacity then some (j, capacity) else none)).insertionSort
        (fun a b => ci a.1 ≤ ci b.1)
  pour_outer_grid_hyb flexible_workload_ratio donor_hours recipient_hours dem

/-- Movable volume above a threshold for the renewable hybrid search
(cas_methods/hybrid_search.py lines 36-39 and 59-62):
`Σ (deficit - thr)` over entries with `deficit > thr`. -/
def movable_above (renewable_deficit : List (ℕ × ℚ)) (thr : ℚ) : ℚ :=
  (renewable_deficit.map (fun p => if thr < p.2 then p.2 - thr else 0)).sum

/-- Exponential bracketing phase of the renewable hybrid threshold search
(cas_methods/hybrid_search.py lines 33-46): double the threshold from seed
0.1 until the movable volume first drops below the target or the threshold
reaches the maximum deficit.  Returns (prev_threshold, threshold). -/
def expo_threshold_ren (renewable_deficit : List (ℕ × ℚ)) (max_deficit target_movable : ℚ) :
    ℕ → ℚ → ℚ → ℚ × ℚ
  | 0, prev_threshold, threshold => (prev_threshold, threshold)
  | fuel + 1, prev_threshold, threshold =>
    if threshold < max_deficit then
      if movable_above renewable_deficit threshold < target_movable then
        (prev_threshold, threshold)
      else expo_threshold_ren renewable_deficit max_deficit target_movable fuel
        threshold (threshold * 2)
    else (prev_threshold, threshold)

/-- Binary refinement phase of the renewable hybrid threshold search
(cas_methods/hybrid_search.py lines 48-68): exactly 7 bisection steps;
`final_threshold` (initially 0) is reassigned only when the movable volume at
the midpoint is not above the target.  Returns (left, right, final). -/
def binary7_ren (renewable_deficit : List (ℕ × ℚ)) (target_movable : ℚ) :
    ℕ → ℚ → ℚ → ℚ → ℚ × ℚ × ℚ
  | 0, left, right, final_threshold => (left, right, final_threshold)
  | k + 1, left, right, final_threshold =>
    let mid := (left + right) / 2
    if target_movable < movable_above renewable_deficit mid then
      binary7_ren renewable_deficit target_movable k mid right final_threshold
    else binary7_ren renewable_deficit target_movable k left mid mid

/-- Full threshold search of `cas_hybrid` for one day window
(cas_methods/hybrid_search.py lines 18-68).
Returns (prev_threshold, threshold, final_threshold): the bracket found by
the exponential phase and the cutoff produced by the 7-step refinement. -/
def cas_hybrid_threshold (dem ren : ℕ → ℚ) (n : ℕ) (flexible_workload_ratio : ℚ)
    (fuel : ℕ) : ℚ × ℚ × ℚ :=
  let renewable_deficit := sort_desc_snd (renewable_deficit_list dem ren n)
  let max_deficit := list_max (renewable_deficit.map Prod.snd)
  let target_movable := ((List.range n).map dem).sum * flexible_workload_ratio / 100
  let p := expo_threshold_ren renewable_deficit max_deficit target_movable fuel 0 (1/10)
  let q := binary7_ren renewable_deficit target_movable 7 p.1 p.2 0
  (p.1, p.2, q.2.2)

/-- Phase-1 movable volume of the grid-mix hybrid search
(cas_methods/hybrid_search.py lines 167-179): for each entry above the
threshold, look up the first list entry with the same intensity and add that
slot's demand times the ratio (the source's `next(...)` lookup). -/
def movable_grid_phase1 (hourly_carbon : List (ℕ × ℚ)) (dem : ℕ → ℚ)
    (flexible_workload_ratio thr : ℚ) : ℚ :=
  (hourly_carbon.map (fun p =>
    if thr < p.2 then
      dem ((hourly_carbon.find? (fun q => q.2 == p.2)).getD (0, 0)).1 *
        flexible_workload_ratio / 100
    else 0)).sum

/-- Phase-2 movable volume of the grid-mix hybrid search
(cas_methods/hybrid_search.py lines 197-202): each entry above the midpoint
contributes its own slot's demand times the ratio. -/
def movable_grid_phase2 (hourly_carbon : List (ℕ × ℚ)) (dem : ℕ → ℚ)
    (flexible_workload_ratio mid : ℚ) : ℚ :=
  (hourly_carbon.map (fun p =>
    if mid < p.2 then dem p.1 * flexible_workload_ratio / 100 else 0)).sum

/-- Exponential bracketing phase of the grid-mix hybrid threshold search
(cas_methods/hybrid_search.py lines 162-185): widen the threshold away from
the day's minimum intensity geometrically. -/
def expo_threshold_grid (hourly_carbon : List (ℕ × ℚ)) (dem : ℕ → ℚ)
    (flexible_workload_ratio min_carbon max_carbon target_movable : ℚ) :
    ℕ → ℚ → ℚ → ℚ × ℚ
  | 0, prev_threshold, threshold => (prev_threshold, threshold)
  | fuel + 1, prev_threshold, threshold =>
    if threshold < max_carbon then
      if movable_grid_phase1 hourly_carbon dem flexible_workload_ratio threshold
          < target_movable then
        (prev_threshold, threshold)
      else expo_threshold_grid hourly_carbon dem flexible_workload_ratio min_carbon
        max_carbon target_movable fuel threshold (min_carbon + (threshold - min_carbon) * 2)
    else (prev_threshold, threshold)

/-- Binary refinement phase of the grid-mix hybrid threshold search
(cas_methods/hybrid_search.py lines 187-208): 7 bisection steps over the
phase-2 movable volume. -/
def binary7_grid (hourly_carbon : List (ℕ × ℚ)) (dem : ℕ → ℚ)
    (flexible_workload_ratio target_movable : ℚ) : ℕ → ℚ → ℚ → ℚ → ℚ × ℚ × ℚ
  | 0, left, right, final_threshold => (left, right, final_threshold)
  | k + 1, left, right, final_threshold =>
    let mid := (left + right) / 2
    if target_movable < movable_grid_phase2 hourly_carbon dem flexible_workload_ratio mid then
      binary7_grid hourly_carbon dem flexible_workload_ratio target_movable k
        mid right final_threshold
    else binary7_grid hourly_carbon dem flexible_workload_ratio target_movable k
      left mid mid

/-- Full threshold search of `hybrid_cas_grid_mix` for one day window
(cas_methods/hybrid_search.py lines 146-208).
Returns (prev_threshold, threshold, final_threshold). -/
def hybrid_cas_grid_mix_threshold (dem ci : ℕ → ℚ) (n : ℕ)
    (flexible_workload_ratio : ℚ) (fuel : ℕ) : ℚ × ℚ × ℚ :=
  let hourly_carbon := sort_desc_snd ((List.range n).map (fun j => (j, ci j)))
  let target_movable := ((List.range n).map dem).sum * flexible_workload_ratio / 100
  let min_carbon := list_min (hourly_carbon.map Prod.snd)
  let max_carbon := list_max (hourly_carbon.map Prod.snd)
  let p := expo_threshold_grid hourly_carbon dem flexible_workload_ratio min_carbon
    max_carbon target_movable fuel min_carbon (min_carbon + (max_carbon - min_carbon) * (1/10))
  let q := binary7_grid hourly_carbon dem flexible_workload_ratio target_movable 7 p.1 p.2 0
  (p.1, p.2, q.2.2)

/-- Threshold search loop of `cas_binary` for one day window
(cas_methods/binary_search.py lines 50-113): `while left <= right` bisect,
keeping the demand column of the last trial (`test_df` survives the loop and
is the window that gets appended). -/
def cas_binary_day_loop (dem ren : ℕ → ℚ) (n : ℕ)
    (flexible_workload_ratio max_capacity total_movable : ℚ) :
    ℕ → ℚ → ℚ → (ℕ → ℚ) → ℕ → ℚ
  | 0, _, _, last, j => last j
  | fuel + 1, left, right, last, j =>
    if left ≤ right then
      let mid := (left + right) / 2
      let r := cas_binary_day_pour dem ren n flexible_workload_ratio max_capacity mid
      if total_movable * (95/100) ≤ r.2 then
        cas_binary_day_loop dem ren n flexible_workload_ratio max_capacity total_movable
          fuel (mid + 1/10) right r.1 j
      else
        cas_binary_day_loop dem ren n flexible_workload_ratio max_capacity total_movable
          fuel left (mid - 1/10) r.1 j
    else last j

/-- Demand column produced by `cas_binary` for one day window
(cas_methods/binary_search.py lines 30-113). -/
def cas_binary_day (dem ren : ℕ → ℚ) (n : ℕ)
    (flexible_workload_ratio max_capacity : ℚ) (fuel : ℕ) : ℕ → ℚ :=
  let renewable_deficit := sort_desc_snd (renewable_deficit_list dem ren n)
  let total_movable := ((List.range n).map dem).sum * flexible_workload_ratio / 100
  let right := list_max (renewable_deficit.map Prod.snd)
  cas_binary_day_loop dem ren n flexible_workload_ratio max_capacity total_movable
    fuel 0 right dem

/-- Threshold search loop of `binary_cas_grid_mix` for one day window
(cas_methods/binary_search.py lines 143-213): `while right - left > 0.1`,
keeping the trial with the best carbon reduction (initially the unmodified
window copy with reduction 0). -/
def binary_cas_grid_mix_day_loop (dem ci : ℕ → ℚ) (n : ℕ)
    (flexible_workload_ratio max_capacity total_movable : ℚ) :
    ℕ → ℚ → ℚ → (ℕ → ℚ) → ℚ → ℕ → ℚ
  | 0, _, _, best_df, _, j => best_df j
  | fuel + 1, left, right, best_df, best_carbon_reduction, j =>
    if 1/10 < right - left then
      let mid := (left + right) / 2
      let r := binary_cas_grid_mix_day_pour dem ci n flexible_workload_ratio max_capacity mid
      let best := if best_carbon_reduction < r.2.2 then (r.1, r.2.2)
        else (best_df, best_carbon_reduction)
      if total_movable * (95/100) ≤ r.2.1 then
        binary_cas_grid_mix_day_loop dem ci n flexible_workload_ratio max_capacity
          total_movable fuel mid right best.1 best.2 j
      else
        binary_cas_grid_mix_day_loop dem ci n flexible_workload_ratio max_capacity
          total_movable fuel left mid best.1 best.2 j
    else best_df j

/-- Demand column produced by `binary_cas_grid_mix` for one day window
(cas_methods/binary_search.py lines 123-215). -/
def binary_cas_grid_mix_day (dem ci : ℕ → ℚ) (n : ℕ)
    (flexible_workload_ratio max_capacity : ℚ) (fuel : ℕ) : ℕ → ℚ :=
  let hourly_carbon := sort_desc_snd ((List.range n).map (fun j => (j, ci j)))
  let total_movable := ((List.range n).map dem).sum * flexible_workload_ratio / 100
  let right := list_max (hourly_carbon.map Prod.snd) - list_min (hourly_carbon.map Prod.snd)
  binary_cas_grid_mix_day_loop dem ci n flexible_workload_ratio max_capacity total_movable
    fuel 0 right dem 0

/-- Demand column produced by `cas_hybrid` for one day window
(cas_methods/hybrid_search.py lines 12-131). -/
def cas_hybrid_day (dem ren : ℕ → ℚ) (n : ℕ)
    (flexible_workload_ratio max_capacity : ℚ) (fuel : ℕ) : ℕ → ℚ :=
  let t := cas_hybrid_threshold dem ren n flexible_workload_ratio fuel
  (cas_hybrid_day_pour dem ren n flexible_workload_ratio max_capacity t.2.2).2

/-- Demand column produced by `hybrid_cas_grid_mix` for one day window
(cas_methods/hybrid_search.py lines 141-264). -/
def hybrid_cas_grid_mix_day (dem ci : ℕ → ℚ) (n : ℕ)
    (flexible_workload_ratio max_capacity : ℚ) (fuel : ℕ) : ℕ → ℚ :=
  let t := hybrid_cas_grid_mix_threshold dem ci n flexible_workload_ratio fuel
  (hybrid_cas_grid_mix_day_pour dem ci n flexible_workload_ratio max_capacity t.2.2).2

/-- Error raised by `pd.concat` on an empty list of frames, which is what all
four reallocators hit when no full 24-row window exists. -/
inductive PandasError where
  | noObjectsToConcatenate
  deriving DecidableEq, Repr

/-- Window/concat skeleton shared by the four reallocators
(cas_methods/binary_search.py lines 29-31 and 115-116, hybrid_search.py
lines 12-14 and 133-134): slice full 24-row windows (a trailing partial
window breaks the loop), process each with `day`, and `pd.concat` the
results — raising when the list of processed windows is empty.  `day` maps a
window's demand and second-column slices to the window's new demand column. -/
def cas_reassemble (df_all : List Row)
    (day : (ℕ → ℚ) → (ℕ → ℚ) → ℕ → (ℕ → ℚ)) : Except PandasError (List Row) :=
  let nw := df_all.length / 24
  let windows := (List.range nw).map (fun w =>
    day (fun j => (df_all.getD (24 * w + j) default).avg_dc_power_mw)
      (fun j => (df_all.getD (24 * w + j) default).tot_renewable) w)
  if windows.isEmpty then Except.error PandasError.noObjectsToConcatenate
  else Except.ok ((List.range (nw * 24)).map (fun i =>
    { df_all.getD i default with
        avg_dc_power_mw := (windows.getD (i / 24) (fun _ => 0)) (i % 24) }))

/-- `cas_binary` (cas_methods/binary_search.py lines 8-116), full series. -/
def cas_binary (df_all : List Row) (flexible_workload_ratio max_capacity : ℚ)
    (fuel : ℕ) : Except PandasError (List Row) :=
  cas_reassemble df_all (fun dem ren _ =>
    cas_binary_day dem ren 24 flexible_workload_ratio max_capacity fuel)

/-- `cas_hybrid` (cas_methods/hybrid_search.py lines 8-134), full series. -/
def cas_hybrid (df_all : List Row) (flexible_workload_ratio max_capacity : ℚ)
    (fuel : ℕ) : Except PandasError (List Row) :=
  cas_reassemble df_all (fun dem ren _ =>
    cas_hybrid_day dem ren 24 flexible_workload_ratio max_capacity fuel)

/-- `binary_cas_grid_mix` (cas_methods/binary_search.py lines 119-218), full
series; the day function reads the carbon-intensity column. -/
def binary_cas_grid_mix (df_all : List Row) (flexible_workload_ratio max_capacity : ℚ)
    (fuel : ℕ) : Except PandasError (List Row) :=
  cas_reassemble df_all (fun dem _ w =>
    binary_cas_grid_mix_day dem
      (fun j => (df_all.getD (24 * w + j) default).carbon_intensity) 24
      flexible_workload_ratio max_capacity fuel)

/-- `hybrid_cas_grid_mix` (cas_methods/hybrid_search.py lines 137-267), full
series. -/
def hybrid_cas_grid_mix (df_all : List Row) (flexible_workload_ratio max_capacity : ℚ)
    (fuel : ℕ) : Except PandasError (List Row) :=
  cas_reassemble df_all (fun dem _ w =>
    hybrid_cas_grid_mix_day dem
      (fun j => (df_all.getD (24 * w + j) default).carbon_intensity) 24
      flexible_workload_ratio max_capacity fuel)

/-- Input series of `cas_binary` after the call: the source copies every day
window (`df_all[i : i + 24].copy()`, cas_methods/binary_search.py line 30)
and every write targets `test_df`, so `df_all` is untouched. -/
def cas_binary_input_after (df_all : List Row) : List Row := df_all

/-- Input series of `cas_hybrid` after the call: windows are copies
(cas_methods/hybrid_search.py lines 13, 96) and writes target
`balanced_day_df`, so `df_all` is untouched. -/
def cas_hybrid_input_after (df_all : List Row) : List Row := df_all

/-- Input series of the two capacity searches and the feasibility oracle
after a call: `_sim_battery_247` and the search wrappers only read `df_ren`
and `df_dc_pow` (battery_methods/binary_search.py lines 10-38). -/
def capacity_search_input_after (df_ren_dc : List Row) : List Row := df_ren_dc

/-! ### Theorems -/

/-- C10: for every input series with fewer than 24 samples, each of the four
daily reallocation functions (both objectives, binary and hybrid strategies)
reaches the concatenation step with an empty list of processed day windows
and raises (pandas `No objects to concatenate`), rather than returning any
series. -/
theorem cas_below_24_samples_errors (df_all : List Row)
    (flexible_workload_ratio max_capacity : ℚ) (fuel : ℕ)
    (h : df_all.length < 24) :
    cas_binary df_all flexible_workload_ratio max_capacity fuel
        = Except.error PandasError.noObjectsToConcatenate ∧
    cas_hybrid df_all flexible_workload_ratio max_capacity fuel
        = Except.error PandasError.noObjectsToConcatenate ∧
    binary_cas_grid_mix df_all flexible_workload_ratio max_capacity fuel
        = Except.error PandasError.noObjectsToConcatenate ∧
    hybrid_cas_grid_mix df_all flexible_workload_ratio max_capacity fuel
        = Except.error PandasError.noObjectsToConcatenate := by
  have h0 : df_all.length / 24 = 0 := Nat.div_eq_of_lt h
  refine ⟨?_, ?_, ?_, ?_⟩ <;>
    simp [cas_binary, cas_hybrid, binary_cas_grid_mix, hybrid_cas_grid_mix,
      cas_reassemble, h0]

/-- Witness for C10 at a concrete 23-row series. -/
theorem cas_below_24_samples_errors_witness :
    cas_binary (List.replicate 23 ⟨1, 1, 1⟩) 20 150 5
        = Except.error PandasError.noObjectsToConcatenate ∧
    cas_hybrid (List.replicate 23 ⟨1, 1, 1⟩) 20 150 5
        = Except.error PandasError.noObjectsToConcatenate ∧
    binary_cas_grid_mix (List.replicate 23 ⟨1, 1, 1⟩) 20 150 5
        = Except.error PandasError.noObjectsToConcatenate ∧
    hybrid_cas_grid_mix (List.replicate 23 ⟨1, 1, 1⟩) 20 150 5
        = Except.error PandasError.noObjectsToConcatenate :=
  cas_below_24_samples_errors (List.replicate 23 ⟨1, 1, 1⟩) 20 150 5 (by simp)

/-- C8 counterexample: the ideal battery's mutations do not clamp on both
sides.  From the valid state load 3, capacity 10, `charge(-5)` leaves the
load at -2 < 0 (battery.py lines 18-22 clamp only from above), refuting the
claim for arbitrary amount arguments. -/
theorem battery_charge_negative_amount_breaks_invariant :
    0 ≤ (Battery.mk 10 3).current_load ∧
    (Battery.mk 10 3).current_load ≤ (Battery.mk 10 3).capacity ∧
    ((Battery.mk 10 3).charge (-5)).current_load < 0 := by decide

/-- C8 amended: for nonnegative amount arguments the invariant
0 ≤ current_load ≤ capacity is preserved by every charge and discharge, for
the ideal battery unconditionally and for the rate-limited battery under the
default preset's coefficient signs (positive efficiencies and step duration,
nonnegative rate caps, upper_lim_u ≤ 0, upper_lim_v = 1, lower_lim_u ≥ 0,
lower_lim_v = 0). -/
theorem battery_invariant_nonneg_amounts :
    (∀ (b : Battery) (x : ℚ), 0 ≤ x →
      0 ≤ b.current_load → b.current_load ≤ b.capacity →
      (0 ≤ (b.charge x).current_load ∧
        (b.charge x).current_load ≤ (b.charge x).capacity) ∧
      (0 ≤ (b.discharge x).2.current_load ∧
        (b.discharge x).2.current_load ≤ (b.discharge x).2.capacity)) ∧
    (∀ (b : Battery2) (x T_u : ℚ), 0 ≤ x → 0 < T_u →
      0 ≤ b.current_load → b.current_load ≤ b.capacity →
      0 < b.eff_c → 0 < b.eff_d → 0 ≤ b.c_lim → 0 ≤ b.d_lim →
      b.upper_lim_u ≤ 0 → b.upper_lim_v = 1 → 0 ≤ b.lower_lim_u → b.lower_lim_v = 0 →
      (0 ≤ (b.charge x T_u).current_load ∧
        (b.charge x T_u).current_load ≤ (b.charge x T_u).capacity) ∧
      (0 ≤ (b.discharge x T_u).2.current_load ∧
        (b.discharge x T_u).2.current_load ≤ (b.discharge x T_u).2.capacity)) := by
  constructor
  · intro b x hx h0 hc
    refine ⟨?_, ?_⟩
    · by_cases h : b.capacity < b.current_load + x
      · have e : b.charge x = { b with current_load := b.capacity } := by
          unfold Battery.charge
          exact if_pos h
        rw [e]
        exact ⟨le_trans h0 hc, le_rfl⟩
      · have e : b.charge x = { b with current_load := b.current_load + x } := by
          unfold Battery.charge
          exact if_neg h
        rw [e]
        refine ⟨?_, not_lt.mp h⟩
        show (0:ℚ) ≤ b.current_load + x
        linarith
    · by_cases h : b.current_load - x < 0
      · have e : b.discharge x
            = (x + (b.current_load - x), { b with current_load := 0 }) := by
          unfold Battery.discharge
          exact if_pos h
        rw [e]
        exact ⟨le_rfl, le_trans h0 hc⟩
      · have e : b.discharge x
            = (x, { b with current_load := b.current_load - x }) := by
          unfold Battery.discharge
          exact if_neg h
        rw [e]
        refine ⟨not_lt.mp h, ?_⟩
        show b.current_load - x ≤ b.capacity
        linarith
  · intro b x T_u hx hT h0 hc hec hed hcl hdl huu huv hlu hlv
    have hcap : 0 ≤ b.capacity := le_trans h0 hc
    have hDc : 0 < b.eff_c * T_u - b.upper_lim_u := by nlinarith
    have hDd : 0 < b.lower_lim_u + b.eff_d * T_u := by nlinarith
    have hmc0 : 0 ≤ b.calc_max_charge T_u := by
      unfold Battery2.calc_max_charge
      refine le_min ?_ ?_
      · positivity
      · apply div_nonneg _ (le_of_lt hDc)
        rw [huv]; linarith
    have hmd0 : 0 ≤ b.calc_max_discharge T_u := by
      unfold Battery2.calc_max_discharge
      refine le_min ?_ ?_
      · positivity
      · apply div_nonneg _ (le_of_lt hDd)
        rw [hlv]; linarith
    refine ⟨⟨?_, ?_⟩, ?_, ?_⟩
    · unfold Battery2.charge
      dsimp only
      nlinarith [le_min hmc0 hx, mul_nonneg (mul_nonneg (le_min hmc0 hx) (le_of_lt hec)) (le_of_lt hT)]
    · unfold Battery2.charge
      dsimp only
      have hble : min (b.calc_max_charge T_u) x ≤
          (b.upper_lim_v * b.capacity - b.current_load) / (b.eff_c * T_u - b.upper_lim_u) :=
        le_trans (min_le_left _ _) (min_le_right _ _)
      have hnum : 0 ≤ b.upper_lim_v * b.capacity - b.current_load := by rw [huv]; linarith
      have hstep : min (b.calc_max_charge T_u) x * (b.eff_c * T_u) ≤
          b.upper_lim_v * b.capacity - b.current_load := by
        calc min (b.calc_max_charge T_u) x * (b.eff_c * T_u)
            ≤ (b.upper_lim_v * b.capacity - b.current_load) / (b.eff_c * T_u - b.upper_lim_u)
                * (b.eff_c * T_u) := by
              apply mul_le_mul_of_nonneg_right hble (by positivity)
          _ ≤ b.upper_lim_v * b.capacity - b.current_load := by
              rw [div_mul_eq_mul_div, div_le_iff₀ hDc]
              apply mul_le_mul_of_nonneg_left _ hnum
              linarith
      have := hstep
      rw [huv] at this
      nlinarith
    · unfold Battery2.discharge
      dsimp only
      have hble : min (b.calc_max_discharge T_u) x ≤
          (b.current_load - b.lower_lim_v * b.capacity) / (b.lower_lim_u + b.eff_d * T_u) :=
        le_trans (min_le_left _ _) (min_le_right _ _)
      have hnum : 0 ≤ b.current_load - b.lower_lim_v * b.capacity := by rw [hlv]; linarith
      have hstep : min (b.calc_max_discharge T_u) x * (b.eff_d * T_u) ≤
          b.current_load - b.lower_lim_v * b.capacity := by
        calc min (b.calc_max_discharge T_u) x * (b.eff_d * T_u)
            ≤ (b.current_load - b.lower_lim_v * b.capacity) / (b.lower_lim_u + b.eff_d * T_u)
                * (b.eff_d * T_u) := by
              apply mul_le_mul_of_nonneg_right hble (by positivity)
          _ ≤ b.current_load - b.lower_lim_v * b.capacity := by
              rw [div_mul_eq_mul_div, div_le_iff₀ hDd]
              apply mul_le_mul_of_nonneg_left _ hnum
              nlinarith
      split <;>
        · dsimp only
          rw [hlv] at hstep
          nlinarith
    · unfold Battery2.discharge
      dsimp only
      have hmin0 : 0 ≤ min (b.calc_max_discharge T_u) x := le_min hmd0 hx
      split <;>
        · dsimp only
          nlinarith [mul_nonneg (mul_nonneg hmin0 (le_of_lt hed)) (le_of_lt hT)]

/-- Witness for C8 amended: a concrete ideal charge and a concrete
rate-limited discharge (default preset, half-full battery) both keep the
invariant. -/
theorem battery_invariant_nonneg_amounts_witness :
    (0 ≤ ((Battery.mk 10 3).charge 5).current_load ∧
      ((Battery.mk 10 3).charge 5).current_load ≤ ((Battery.mk 10 3).charge 5).capacity) ∧
    (0 ≤ ((Battery2.mkDefault 1 (1/2)).discharge 1 1).2.current_load ∧
      ((Battery2.mkDefault 1 (1/2)).discharge 1 1).2.current_load
        ≤ ((Battery2.mkDefault 1 (1/2)).discharge 1 1).2.capacity) :=
  ⟨(battery_invariant_nonneg_amounts.1 (Battery.mk 10 3) 5 (by norm_num) (by norm_num)
      (by norm_num)).1,
    (battery_invariant_nonneg_amounts.2 (Battery2.mkDefault 1 (1/2)) 1 1 (by norm_num)
      (by norm_num) (by norm_num [Battery2.mkDefault]) (by norm_num [Battery2.mkDefault])
      (by norm_num [Battery2.mkDefault]) (by norm_num [Battery2.mkDefault])
      (by norm_num [Battery2.mkDefault]) (by norm_num [Battery2.mkDefault])
      (by norm_num [Battery2.mkDefault]) (by norm_num [Battery2.mkDefault])
      (by norm_num [Battery2.mkDefault]) (by norm_num [Battery2.mkDefault])).2⟩

/-- C5: Battery2 performs no configuration validation: coefficients that flip
the sign of a rate-limit denominator are accepted and `calc_max_charge` /
`calc_max_discharge` silently return a negative "maximum" rate instead of an
InvalidConfiguration error (battery.py lines 102-126 divide directly; no
check exists anywhere in the class). -/
theorem calc_max_degenerate_denominator_propagates :
    ({ Battery2.mkDefault 1 0 with eff_c := 1/100, upper_lim_u := 1/2 } :
        Battery2).calc_max_charge 1 < 0 ∧
    ({ Battery2.mkDefault 1 1 with lower_lim_u := -2 } :
        Battery2).calc_max_discharge 1 < 0 := by decide

/-- C4: the capacity-growth refinement loop of
`Battery2.find_and_init_capacity` never exits when `lower_lim_v = 1` (the
numerator `new_capacity - lower_lim_v * capacity` then stays 0 forever, and
both state variables grow by 0.1 in lock step), for any fuel bound: the
source's `while True` (battery.py lines 162-170) loops unboundedly and no
NumericalDegeneracy error exists in the code. -/
theorem find_and_init_capacity_no_iteration_cap (fuel : ℕ) :
    ({ Battery2.mkDefault 0 0 with lower_lim_v := 1 } :
        Battery2).find_and_init_capacity 1 fuel = none := by
  have key : ∀ (m : ℕ) (c : ℚ),
      find_and_init_capacity_loop (1/100) 1 (26/25) 1 m c c = none := by
    intro m
    induction m with
    | zero => intro c; rfl
    | succ k ih =>
      intro c
      have hcond : (c - 1 * c) / ((1:ℚ)/100 + 26/25) < 1 := by
        rw [show c - 1 * c = 0 by ring]
        norm_num
      simp only [find_and_init_capacity_loop, if_pos hcond]
      exact ih (c + 1/10)
  show (match find_and_init_capacity_loop (1/100) 1 (26/25) 1 fuel
      (0 + 1 * (26/25)) (1 * (26/25)) with
    | none => none
    | some c => some _) = none
  rw [show (0 : ℚ) + 1 * (26/25) = 26/25 by norm_num,
    show (1 : ℚ) * (26/25) = 26/25 by norm_num, key fuel (26/25)]

set_option maxRecDepth 200000 in
/-- C3 counterexample: `apply_battery` mutates the series the caller passed
in.  With df_ren = [2], df_dc_pow = [1] and capacity 0, the caller's df_ren
holds 1 (not 2) after the call: battery_utils.py line 80 writes
`df_ren.iloc[i] += gap * (1/60)` on the argument dataframe itself, so the
algorithm is not side-effect-free on its input series. -/
theorem apply_battery_mutates_input :
    apply_battery_input_after 0 (fun _ => 2) (fun _ => 1) 1 0 = 1 ∧
    ((1 : ℚ) ≠ 2) := by
  constructor
  · decide
  · norm_num

/-- C3 amended: the capacity searches and the two daily reallocators only read
their input series (every write targets a per-day `.copy()`), but
`apply_battery` is not side-effect-free: the series it returns is the
caller's own df_ren, mutated in place (battery_utils.py lines 80 and 85). -/
theorem side_effect_freedom_split (df_all df_rc : List Row) (battery_capacity : ℚ)
    (df_ren df_dc_pow : ℕ → ℚ) (n : ℕ) :
    cas_binary_input_after df_all = df_all ∧
    cas_hybrid_input_after df_all = df_all ∧
    capacity_search_input_after df_rc = df_rc ∧
    apply_battery_input_after battery_capacity df_ren df_dc_pow n
      = (apply_battery battery_capacity df_ren df_dc_pow n).2 :=
  ⟨rfl, rfl, rfl, rfl⟩

/-- Sum over a range after a single functional update at an in-range index. -/
theorem sum_update_range {n : ℕ} (f : ℕ → ℚ) {i : ℕ} (hi : i < n) (v : ℚ) :
    ∑ j in Finset.range n, Function.update f i v j
      = (∑ j in Finset.range n, f j) - f i + v := by
  rw [Finset.sum_update_of_mem (Finset.mem_range.2 hi),
    Finset.sum_sdiff_eq_sub (Finset.singleton_subset_iff.2 (Finset.mem_range.2 hi)),
    Finset.sum_singleton]
  ring

/-- One donor→recipient transfer (subtract at the donor, then add the same
amount at the recipient, reading the intermediate state) conserves the window
demand sum. -/
theorem sum_move {n : ℕ} (dem : ℕ → ℚ) {i j : ℕ} (hi : i < n) (hj : j < n) (a : ℚ) :
    ∑ k in Finset.range n,
      Function.update (Function.update dem i (dem i - a)) j
        (Function.update dem i (dem i - a) j + a) k
      = ∑ k in Finset.range n, dem k := by
  rw [sum_update_range _ hj, sum_update_range _ hi]
  ring

/-- Membership in an insertion-sorted list is membership in the original. -/
theorem mem_insertionSort_iff {α : Type} (r : α → α → Prop) [DecidableRel r]
    {l : List α} {a : α} : a ∈ l.insertionSort r ↔ a ∈ l :=
  (List.perm_insertionSort r l).mem_iff

/-- The inner recipient loop of the renewable binary pour conserves the
window demand sum. -/
theorem pour_inner_ren_bin_sum {n : ℕ} (ren : ℕ → ℚ) (mc : ℚ) {fi : ℕ} (hfi : fi < n) :
    ∀ (recips : List ℕ) (movable moved : ℚ) (dem : ℕ → ℚ),
      (∀ t ∈ recips, t < n) →
      ∑ k in Finset.range n, (pour_inner_ren_bin ren mc fi recips movable moved dem).1 k
        = ∑ k in Finset.range n, dem k := by
  intro recips
  induction recips with
  | nil => intro movable moved dem _; rfl
  | cons t rest ih =>
    intro movable moved dem h
    have ht : t < n := h t (List.mem_cons_self _ _)
    have hrest : ∀ x ∈ rest, x < n := fun x hx => h x (List.mem_cons_of_mem _ hx)
    simp only [pour_inner_ren_bin]
    split_ifs with h1 h2 h3
    · exact ih movable moved dem hrest
    · exact ih movable moved dem hrest
    · exact sum_move dem hfi ht _
    · rw [ih _ _ _ hrest, sum_move dem hfi ht _]

/-- The donor loop of the renewable binary pour conserves the window demand
sum. -/
theorem pour_outer_ren_bin_sum {n : ℕ} (ren : ℕ → ℚ) (ratio mc tm : ℚ)
    (recips : List ℕ) (hrec : ∀ t ∈ recips, t < n) :
    ∀ (donors : List ℕ) (moved : ℚ) (dem : ℕ → ℚ),
      (∀ d ∈ donors, d < n) →
      ∑ k in Finset.range n, (pour_outer_ren_bin ren ratio mc tm recips donors moved dem).1 k
        = ∑ k in Finset.range n, dem k := by
  intro donors
  induction donors with
  | nil => intro moved dem _; rfl
  | cons d rest ih =>
    intro moved dem h
    have hd : d < n := h d (List.mem_cons_self _ _)
    have hrest : ∀ x ∈ rest, x < n := fun x hx => h x (List.mem_cons_of_mem _ hx)
    simp only [pour_outer_ren_bin]
    split_ifs with h1
    · rfl
    · rw [ih _ _ hrest, pour_inner_ren_bin_sum ren mc hd recips _ _ dem hrec]

/-- The inner recipient loop of the grid-mix binary pour conserves the window
demand sum. -/
theorem pour_inner_grid_bin_sum {n : ℕ} (ci : ℕ → ℚ) (mc : ℚ) {fi : ℕ} (hfi : fi < n) :
    ∀ (recips : List ℕ) (movable moved cr : ℚ) (dem : ℕ → ℚ),
      (∀ t ∈ recips, t < n) →
      ∑ k in Finset.range n, (pour_inner_grid_bin ci mc fi recips movable moved cr dem).1 k
        = ∑ k in Finset.range n, dem k := by
  intro recips
  induction recips with
  | nil => intro movable moved cr dem _; rfl
  | cons t rest ih =>
    intro movable moved cr dem h
    have ht : t < n := h t (List.mem_cons_self _ _)
    have hrest : ∀ x ∈ rest, x < n := fun x hx => h x (List.mem_cons_of_mem _ hx)
    simp only [pour_inner_grid_bin]
    split_ifs with h1 h2 h3
    · exact ih movable moved cr dem hrest
    · exact ih movable moved cr dem hrest
    · exact sum_move dem hfi ht _
    · rw [ih _ _ _ _ hrest, sum_move dem hfi ht _]

/-- The donor loop of the grid-mix binary pour conserves the window demand
sum. -/
theorem pour_outer_grid_bin_sum {n : ℕ} (ci : ℕ → ℚ) (ratio mc tm : ℚ)
    (recips : List ℕ) (hrec : ∀ t ∈ recips, t < n) :
    ∀ (donors : List ℕ) (moved cr : ℚ) (dem : ℕ → ℚ),
      (∀ d ∈ donors, d < n) →
      ∑ k in Finset.range n, (pour_outer_grid_bin ci ratio mc tm recips donors moved cr dem).1 k
        = ∑ k in Finset.range n, dem k := by
  intro donors
  induction donors with
  | nil => intro moved cr dem _; rfl
  | cons d rest ih =>
    intro moved cr dem h
    have hd : d < n := h d (List.mem_cons_self _ _)
    have hrest : ∀ x ∈ rest, x < n := fun x hx => h x (List.mem_cons_of_mem _ hx)
    simp only [pour_outer_grid_bin]
    split_ifs with h1
    · rfl
    · rw [ih _ _ _ hrest, pour_inner_grid_bin_sum ci mc hd recips _ _ _ dem hrec]

/-- Replacement of the first matching pair only introduces the new pair. -/
theorem replace_first_mem {L : List (ℕ × ℚ)} {old new q : ℕ × ℚ}
    (hq : q ∈ replace_first L old new) : q ∈ L ∨ q = new := by
  induction L with
  | nil => simp [replace_first] at hq
  | cons x xs ih =>
    simp only [replace_first] at hq
    split_ifs at hq with hx
    · rcases List.mem_cons.1 hq with h | h
      · exact Or.inr h
      · exact Or.inl (List.mem_cons_of_mem _ h)
    · rcases List.mem_cons.1 hq with h | h
      · exact Or.inl (h ▸ List.mem_cons_self _ _)
      · rcases ih h with h' | h'
        · exact Or.inl (List.mem_cons_of_mem _ h')
        · exact Or.inr h'

/-- The inner recipient loop shared by the hybrid pours conserves the window
demand sum. -/
theorem pour_inner_hyb_sum {n : ℕ} {fi : ℕ} (hfi : fi < n) :
    ∀ (remaining k : ℕ) (recips : List (ℕ × ℚ)) (movable : ℚ) (dem : ℕ → ℚ),
      (∀ p ∈ recips, p.1 < n) →
      ∑ j in Finset.range n, (pour_inner_hyb fi k remaining recips movable dem).2 j
        = ∑ j in Finset.range n, dem j := by
  intro remaining
  induction remaining with
  | zero => intro k recips movable dem _; rfl
  | succ r ih =>
    intro k recips movable dem h
    rcases hk : recips[k]? with _ | rc
    · simp only [pour_inner_hyb, hk]
    · have hrc : rc.1 < n := h rc (List.getElem?_mem hk)
      have h' : ∀ p ∈ replace_first recips rc (rc.1, rc.2 - min movable rc.2), p.1 < n := by
        intro p hp
        rcases replace_first_mem hp with h1 | h1
        · exact h p h1
        · rw [h1]; exact hrc
      simp only [pour_inner_hyb, hk]
      split_ifs with h1 h2 h3
      · exact ih _ _ _ _ h
      · exact ih _ _ _ _ h
      · exact sum_move dem hfi hrc _
      · rw [ih _ _ _ _ h', sum_move dem hfi hrc _]

/-- The inner recipient loop shared by the hybrid pours keeps every
recipient key inside the window. -/
theorem pour_inner_hyb_keys {n fi : ℕ} :
    ∀ (remaining k : ℕ) (recips : List (ℕ × ℚ)) (movable : ℚ) (dem : ℕ → ℚ),
      (∀ p ∈ recips, p.1 < n) →
      ∀ p ∈ (pour_inner_hyb fi k remaining recips movable dem).1, p.1 < n := by
  intro remaining
  induction remaining with
  | zero => intro k recips movable dem h; exact h
  | succ r ih =>
    intro k recips movable dem h
    rcases hk : recips[k]? with _ | rc
    · simp only [pour_inner_hyb, hk]; exact h
    · have h' : ∀ p ∈ replace_first recips rc (rc.1, rc.2 - min movable rc.2), p.1 < n := by
        intro p hp
        rcases replace_first_mem hp with h1 | h1
        · exact h p h1
        · rw [h1]; exact h rc (List.getElem?_mem hk)
      simp only [pour_inner_hyb, hk]
      split_ifs with h1 h2 h3
      · exact ih _ _ _ _ h
      · exact ih _ _ _ _ h
      · exact h'
      · exact ih _ _ _ _ h'

/-- The donor loop of the renewable hybrid pour conserves the window demand
sum. -/
theorem pour_outer_ren_hyb_sum {n : ℕ} (ratio : ℚ) :
    ∀ (donors : List (ℕ × ℚ)) (recips : List (ℕ × ℚ)) (dem : ℕ → ℚ),
      (∀ d ∈ donors, d.1 < n) → (∀ p ∈ recips, p.1 < n) →
      ∑ j in Finset.range n, (pour_outer_ren_hyb ratio donors recips dem).2 j
        = ∑ j in Finset.range n, dem j := by
  intro donors
  induction donors with
  | nil => intro recips dem _ _; rfl
  | cons d rest ih =>
    intro recips dem h hrec
    have hd : d.1 < n := h d (List.mem_cons_self _ _)
    have hrest : ∀ x ∈ rest, x.1 < n := fun x hx => h x (List.mem_cons_of_mem _ hx)
    have hrec' : ∀ p ∈ (pour_inner_hyb d.1 0 recips.length recips
        (min d.2 (ratio / 100 * dem d.1)) dem).1, p.1 < n := by
      intro p hp
      exact pour_inner_hyb_keys _ _ _ _ _ hrec p hp
    simp only [pour_outer_ren_hyb]
    split_ifs with h1
    · exact ih _ _ hrest hrec
    · rw [ih _ _ hrest hrec', pour_inner_hyb_sum hd _ _ _ _ _ hrec]

/-- The donor loop of the grid-mix hybrid pour conserves the window demand
sum. -/
theorem pour_outer_grid_hyb_sum {n : ℕ} (ratio : ℚ) :
    ∀ (donors : List (ℕ × ℚ)) (recips : List (ℕ × ℚ)) (dem : ℕ → ℚ),
      (∀ d ∈ donors, d.1 < n) → (∀ p ∈ recips, p.1 < n) →
      ∑ j in Finset.range n, (pour_outer_grid_hyb ratio donors recips dem).2 j
        = ∑ j in Finset.range n, dem j := by
  intro donors
  induction donors with
  | nil => intro recips dem _ _; rfl
  | cons d rest ih =>
    intro recips dem h hrec
    have hd : d.1 < n := h d (List.mem_cons_self _ _)
    have hrest : ∀ x ∈ rest, x.1 < n := fun x hx => h x (List.mem_cons_of_mem _ hx)
    have hrec' : ∀ p ∈ (pour_inner_hyb d.1 0 recips.length recips
        (ratio / 100 * dem d.1) dem).1, p.1 < n := by
      intro p hp
      exact pour_inner_hyb_keys _ _ _ _ _ hrec p hp
    simp only [pour_outer_grid_hyb]
    split_ifs with h1
    · exact ih _ _ hrest hrec
    · rw [ih _ _ hrest hrec', pour_inner_hyb_sum hd _ _ _ _ _ hrec]

/-- Membership through `sort_desc_snd` is membership in the original list. -/
theorem mem_sort_desc_snd {l : List (ℕ × ℚ)} {p : ℕ × ℚ} :
    p ∈ sort_desc_snd l ↔ p ∈ l := by
  unfold sort_desc_snd
  exact (List.perm_insertionSort _ l).mem_iff

/-- Inversion for the `[idx for idx, v in l if cond(v)]` comprehensions. -/
theorem mem_of_indicator_filterMap {l : List (ℕ × ℚ)} {c : ℕ × ℚ → Prop} [DecidablePred c]
    {i : ℕ} (hi : i ∈ l.filterMap (fun p => if c p then some p.1 else none)) :
    ∃ v, (i, v) ∈ l ∧ c (i, v) := by
  rw [List.mem_filterMap] at hi
  obtain ⟨p, hp, hpi⟩ := hi
  split_ifs at hpi with h
  cases hpi
  exact ⟨p.2, by simpa using hp, by simpa using h⟩

/-- Keys of `[(j, g j) for j in range(n)]` are below `n`. -/
theorem mem_range_pairs {g : ℕ → ℚ} {n : ℕ} {p : ℕ × ℚ}
    (hp : p ∈ (List.range n).map (fun j => (j, g j))) : p.1 < n := by
  rw [List.mem_map] at hp
  obtain ⟨j, hj, rfl⟩ := hp
  exact List.mem_range.mp hj

/-- Keys of a key-preserving filterMap over `range n` are below `n`. -/
theorem key_lt_of_range_filterMap {f : ℕ → Option (ℕ × ℚ)} {n : ℕ}
    (hf : ∀ j p, f j = some p → p.1 = j) {p : ℕ × ℚ}
    (hp : p ∈ (List.range n).filterMap f) : p.1 < n := by
  rw [List.mem_filterMap] at hp
  obtain ⟨j, hj, hfj⟩ := hp
  rw [hf j p hfj]
  exact List.mem_range.mp hj

/-- Members of a filtered `range n` are below `n`. -/
theorem lt_of_mem_range_filter {n : ℕ} {q : ℕ → Bool} {i : ℕ}
    (hi : i ∈ (List.range n).filter q) : i < n :=
  List.mem_range.mp (List.mem_of_mem_filter hi)

/-- C1: for every day window, either objective (renewable-deficit or
carbon-intensity) and any threshold cutoff — hence any threshold-search
strategy, since a strategy only selects the cutoff — the greedy pour leaves
the sum of the window's demand values unchanged: each transfer subtracts from
the donor exactly what it adds to the recipient. -/
theorem pour_conserves_demand_sum (n : ℕ) (dem ren ci : ℕ → ℚ)
    (flexible_workload_ratio max_capacity thr : ℚ) :
    (∑ j in Finset.range n,
        (cas_binary_day_pour dem ren n flexible_workload_ratio max_capacity thr).1 j
      = ∑ j in Finset.range n, dem j) ∧
    (∑ j in Finset.range n,
        (binary_cas_grid_mix_day_pour dem ci n flexible_workload_ratio max_capacity thr).1 j
      = ∑ j in Finset.range n, dem j) ∧
    (∑ j in Finset.range n,
        (cas_hybrid_day_pour dem ren n flexible_workload_ratio max_capacity thr).2 j
      = ∑ j in Finset.range n, dem j) ∧
    (∑ j in Finset.range n,
        (hybrid_cas_grid_mix_day_pour dem ci n flexible_workload_ratio max_capacity thr).2 j
      = ∑ j in Finset.range n, dem j) := by
  refine ⟨?_, ?_, ?_, ?_⟩
  · simp only [cas_binary_day_pour]
    apply pour_outer_ren_bin_sum
    · intro t ht
      rw [mem_insertionSort_iff] at ht
      exact lt_of_mem_range_filter ht
    · intro d hd
      obtain ⟨v, hv, _⟩ := mem_of_indicator_filterMap hd
      rw [mem_sort_desc_snd] at hv
      simp only [renewable_deficit_list] at hv
      exact mem_range_pairs hv
  · simp only [binary_cas_grid_mix_day_pour]
    apply pour_outer_grid_bin_sum
    · intro t ht
      rw [mem_insertionSort_iff] at ht
      obtain ⟨v, hv, _⟩ := mem_of_indicator_filterMap ht
      rw [mem_sort_desc_snd] at hv
      exact mem_range_pairs hv
    · intro d hd
      obtain ⟨v, hv, _⟩ := mem_of_indicator_filterMap hd
      rw [mem_sort_desc_snd] at hv
      exact mem_range_pairs hv
  · simp only [cas_hybrid_day_pour]
    apply pour_outer_ren_hyb_sum
    · intro d hd
      rw [mem_sort_desc_snd] at hd
      refine key_lt_of_range_filterMap ?_ hd
      intro j p h
      split_ifs at h
      · cases h; rfl
    · intro p hp
      rw [mem_sort_desc_snd] at hp
      refine key_lt_of_range_filterMap ?_ hp
      intro j q h
      split_ifs at h
      · cases h; rfl
  · simp only [hybrid_cas_grid_mix_day_pour]
    apply pour_outer_grid_hyb_sum
    · intro d hd
      rw [mem_sort_desc_snd] at hd
      refine key_lt_of_range_filterMap ?_ hd
      intro j p h
      split_ifs at h
      · cases h; rfl
    · intro p hp
      rw [mem_insertionSort_iff] at hp
      refine key_lt_of_range_filterMap ?_ hp
      intro j q h
      split_ifs at h
      · cases h; rfl

/-- One transfer of a positive amount bounded by the recipient's remaining
ceiling headroom preserves the property that every slot whose demand has
grown stays at or below the ceiling. -/
theorem move_preserves_ceiling {mc : ℚ} {dem dem₀ : ℕ → ℚ} {fi t : ℕ} {a : ℚ}
    (hne : fi ≠ t) (ha : 0 < a) (hroom : a ≤ mc - dem t)
    (hQ : ∀ j, dem₀ j < dem j → dem j ≤ mc) :
    ∀ j, dem₀ j < Function.update (Function.update dem fi (dem fi - a)) t
        (Function.update dem fi (dem fi - a) t + a) j →
      Function.update (Function.update dem fi (dem fi - a)) t
        (Function.update dem fi (dem fi - a) t + a) j ≤ mc := by
  intro j hj
  by_cases hjt : j = t
  · subst hjt
    rw [Function.update_same, Function.update_noteq (Ne.symm hne)] at hj ⊢
    linarith
  · rw [Function.update_noteq hjt] at hj ⊢
    by_cases hjf : j = fi
    · rw [hjf, Function.update_same] at hj ⊢
      have := hQ fi (by linarith)
      linarith
    · rw [Function.update_noteq hjf] at hj ⊢
      exact hQ j hj

/-- The inner recipient loop of the renewable binary pour never lifts a slot
above the ceiling: its transfers are bounded by the recipient's live headroom
`min (ren - dem) (max_capacity - dem)`. -/
theorem pour_inner_ren_bin_ceiling (ren : ℕ → ℚ) (mc : ℚ) (dem₀ : ℕ → ℚ) {fi : ℕ} :
    ∀ (recips : List ℕ) (movable moved : ℚ) (dem : ℕ → ℚ),
      fi ∉ recips →
      (∀ j, dem₀ j < dem j → dem j ≤ mc) →
      ∀ j, dem₀ j < (pour_inner_ren_bin ren mc fi recips movable moved dem).1 j →
        (pour_inner_ren_bin ren mc fi recips movable moved dem).1 j ≤ mc := by
  intro recips
  induction recips with
  | nil => intro movable moved dem _ hQ; exact hQ
  | cons t rest ih =>
    intro movable moved dem hfi hQ
    have hfit : fi ≠ t := fun h => hfi (h ▸ List.mem_cons_self _ _)
    have hfir : fi ∉ rest := fun h => hfi (List.mem_cons_of_mem _ h)
    simp only [pour_inner_ren_bin]
    split_ifs with h1 h2 h3
    · exact ih _ _ _ hfir hQ
    · exact ih _ _ _ hfir hQ
    · exact move_preserves_ceiling hfit (not_le.mp h2)
        (le_trans (min_le_right _ _) (min_le_right _ _)) hQ
    · exact ih _ _ _ hfir
        (move_preserves_ceiling hfit (not_le.mp h2)
          (le_trans (min_le_right _ _) (min_le_right _ _)) hQ)

/-- The donor loop of the renewable binary pour never lifts a slot above the
ceiling. -/
theorem pour_outer_ren_bin_ceiling (ren : ℕ → ℚ) (ratio mc tm : ℚ)
    (recips : List ℕ) (dem₀ : ℕ → ℚ) :
    ∀ (donors : List ℕ) (moved : ℚ) (dem : ℕ → ℚ),
      (∀ d ∈ donors, d ∉ recips) →
      (∀ j, dem₀ j < dem j → dem j ≤ mc) →
      ∀ j, dem₀ j < (pour_outer_ren_bin ren ratio mc tm recips donors moved dem).1 j →
        (pour_outer_ren_bin ren ratio mc tm recips donors moved dem).1 j ≤ mc := by
  intro donors
  induction donors with
  | nil => intro moved dem _ hQ; exact hQ
  | cons d rest ih =>
    intro moved dem h hQ
    have hd : d ∉ recips := h d (List.mem_cons_self _ _)
    have hrest : ∀ x ∈ rest, x ∉ recips := fun x hx => h x (List.mem_cons_of_mem _ hx)
    simp only [pour_outer_ren_bin]
    split_ifs with h1
    · exact hQ
    · exact ih _ _ hrest (pour_inner_ren_bin_ceiling ren mc dem₀ recips _ _ dem hd hQ)

/-- The inner recipient loop of the grid-mix binary pour never lifts a slot
above the ceiling (live headroom `max_capacity - dem`). -/
theorem pour_inner_grid_bin_ceiling (ci : ℕ → ℚ) (mc : ℚ) (dem₀ : ℕ → ℚ) {fi : ℕ} :
    ∀ (recips : List ℕ) (movable moved cr : ℚ) (dem : ℕ → ℚ),
      fi ∉ recips →
      (∀ j, dem₀ j < dem j → dem j ≤ mc) →
      ∀ j, dem₀ j < (pour_inner_grid_bin ci mc fi recips movable moved cr dem).1 j →
        (pour_inner_grid_bin ci mc fi recips movable moved cr dem).1 j ≤ mc := by
  intro recips
  induction recips with
  | nil => intro movable moved cr dem _ hQ; exact hQ
  | cons t rest ih =>
    intro movable moved cr dem hfi hQ
    have hfit : fi ≠ t := fun h => hfi (h ▸ List.mem_cons_self _ _)
    have hfir : fi ∉ rest := fun h => hfi (List.mem_cons_of_mem _ h)
    simp only [pour_inner_grid_bin]
    split_ifs with h1 h2 h3
    · exact ih _ _ _ _ hfir hQ
    · exact ih _ _ _ _ hfir hQ
    · exact move_preserves_ceiling hfit (not_le.mp h2) (min_le_right _ _) hQ
    · exact ih _ _ _ _ hfir
        (move_preserves_ceiling hfit (not_le.mp h2) (min_le_right _ _) hQ)

/-- The donor loop of the grid-mix binary pour never lifts a slot above the
ceiling. -/
theorem pour_outer_grid_bin_ceiling (ci : ℕ → ℚ) (ratio mc tm : ℚ)
    (recips : List ℕ) (dem₀ : ℕ → ℚ) :
    ∀ (donors : List ℕ) (moved cr : ℚ) (dem : ℕ → ℚ),
      (∀ d ∈ donors, d ∉ recips) →
      (∀ j, dem₀ j < dem j → dem j ≤ mc) →
      ∀ j, dem₀ j < (pour_outer_grid_bin ci ratio mc tm recips donors moved cr dem).1 j →
        (pour_outer_grid_bin ci ratio mc tm recips donors moved cr dem).1 j ≤ mc := by
  intro donors
  induction donors with
  | nil => intro moved cr dem _ hQ; exact hQ
  | cons d rest ih =>
    intro moved cr dem h hQ
    have hd : d ∉ recips := h d (List.mem_cons_self _ _)
    have hrest : ∀ x ∈ rest, x ∉ recips := fun x hx => h x (List.mem_cons_of_mem _ hx)
    simp only [pour_outer_grid_bin]
    split_ifs with h1
    · exact hQ
    · exact ih _ _ _ hrest (pour_inner_grid_bin_ceiling ci mc dem₀ recips _ _ _ dem hd hQ)

/-- With pairwise-distinct keys, replacing the first occurrence of a present
pair yields only the new pair or old pairs with a different key. -/
theorem replace_first_mem_strong :
    ∀ {L : List (ℕ × ℚ)} {rc new : ℕ × ℚ},
      rc ∈ L → L.Pairwise (fun p q => p.1 ≠ q.1) →
      ∀ p ∈ replace_first L rc new, p = new ∨ (p ∈ L ∧ p.1 ≠ rc.1) := by
  intro L
  induction L with
  | nil => intro rc new h; cases h
  | cons x xs ih =>
    intro rc new hrc hnd p hp
    rw [List.pairwise_cons] at hnd
    simp only [replace_first] at hp
    split_ifs at hp with hx
    · rcases List.mem_cons.1 hp with h | h
      · exact Or.inl h
      · refine Or.inr ⟨List.mem_cons_of_mem _ h, ?_⟩
        rw [← hx]
        exact (hnd.1 p h).symm
    · have hrcxs : rc ∈ xs := by
        rcases List.mem_cons.1 hrc with h | h
        · exact absurd h.symm hx
        · exact h
      rcases List.mem_cons.1 hp with h | h
      · refine Or.inr ⟨h ▸ List.mem_cons_self _ _, ?_⟩
        rw [h]
        exact hnd.1 rc hrcxs
      · rcases ih hrcxs hnd.2 p h with h' | h'
        · exact Or.inl h'
        · exact Or.inr ⟨List.mem_cons_of_mem _ h'.1, h'.2⟩

/-- Replacing the first occurrence of a present pair by a pair with the same
key preserves pairwise-distinct keys. -/
theorem replace_first_pairwise :
    ∀ {L : List (ℕ × ℚ)} {rc new : ℕ × ℚ}, new.1 = rc.1 → rc ∈ L →
      L.Pairwise (fun p q => p.1 ≠ q.1) →
      (replace_first L rc new).Pairwise (fun p q => p.1 ≠ q.1) := by
  intro L
  induction L with
  | nil => intro rc new _ h; cases h
  | cons x xs ih =>
    intro rc new hkey hrc hnd
    rw [List.pairwise_cons] at hnd
    simp only [replace_first]
    split_ifs with hx
    · rw [List.pairwise_cons]
      refine ⟨?_, hnd.2⟩
      intro q hq
      rw [hkey, ← hx]
      exact hnd.1 q hq
    · have hrcxs : rc ∈ xs := by
        rcases List.mem_cons.1 hrc with h | h
        · exact absurd h.symm hx
        · exact h
      rw [List.pairwise_cons]
      refine ⟨?_, ih hkey hrcxs hnd.2⟩
      intro q hq
      rcases replace_first_mem hq with h | h
      · exact hnd.1 q h
      · rw [h, hkey]
        exact hnd.1 rc hrcxs

/-- A key-preserving filterMap over a duplicate-free index list has
pairwise-distinct keys. -/
theorem pairwise_keys_filterMap {f : ℕ → Option (ℕ × ℚ)}
    (hf : ∀ j p, f j = some p → p.1 = j) :
    ∀ (l : List ℕ), l.Pairwise (· ≠ ·) →
      (l.filterMap f).Pairwise (fun p q => p.1 ≠ q.1) := by
  intro l
  induction l with
  | nil => intro _; simp
  | cons j js ih =>
    intro hl
    rw [List.pairwise_cons] at hl
    rcases hfj : f j with _ | p
    · simp only [List.filterMap_cons, hfj]
      exact ih hl.2
    · simp only [List.filterMap_cons, hfj]
      rw [List.pairwise_cons]
      refine ⟨?_, ih hl.2⟩
      intro q hq
      rw [List.mem_filterMap] at hq
      obtain ⟨j', hj', hfj'⟩ := hq
      rw [hf j p hfj, hf j' q hfj']
      exact hl.1 j' hj'

/-- One hybrid-pour transfer preserves all four running invariants:
recipient keys keep their qualifying property and stay pairwise distinct,
every stored headroom still matches the ceiling headroom at the current
demand, and no grown slot exceeds the ceiling. -/
theorem hyb_move_pack {mc : ℚ} (G : ℕ → Prop) (dem₀ dem : ℕ → ℚ) {fi : ℕ}
    (hfi : ¬ G fi) {recips : List (ℕ × ℚ)} {rc : ℕ × ℚ} (hrc : rc ∈ recips)
    (hG : ∀ p ∈ recips, G p.1)
    (hnd : recips.Pairwise (fun p q => p.1 ≠ q.1))
    (hR : ∀ p ∈ recips, p.2 ≤ mc - dem p.1)
    (hQ : ∀ j, dem₀ j < dem j → dem j ≤ mc)
    {a : ℚ} (ha : 0 < a) (haa : a ≤ rc.2) :
    (∀ p ∈ replace_first recips rc (rc.1, rc.2 - a), G p.1) ∧
    (replace_first recips rc (rc.1, rc.2 - a)).Pairwise (fun p q => p.1 ≠ q.1) ∧
    (∀ p ∈ replace_first recips rc (rc.1, rc.2 - a),
      p.2 ≤ mc - Function.update (Function.update dem fi (dem fi - a)) rc.1
        (Function.update dem fi (dem fi - a) rc.1 + a) p.1) ∧
    (∀ j, dem₀ j < Function.update (Function.update dem fi (dem fi - a)) rc.1
        (Function.update dem fi (dem fi - a) rc.1 + a) j →
      Function.update (Function.update dem fi (dem fi - a)) rc.1
        (Function.update dem fi (dem fi - a) rc.1 + a) j ≤ mc) := by
  have hGt : G rc.1 := hG rc hrc
  have hfit : fi ≠ rc.1 := fun h => hfi (h ▸ hGt)
  have hroom : a ≤ mc - dem rc.1 := le_trans haa (hR rc hrc)
  refine ⟨?_, ?_, ?_, ?_⟩
  · intro p hp
    rcases replace_first_mem hp with h | h
    · exact hG p h
    · rw [h]; exact hGt
  · exact replace_first_pairwise rfl hrc hnd
  · intro p hp
    rcases replace_first_mem_strong hrc hnd p hp with h | ⟨hpL, hpk⟩
    · rw [h]
      dsimp only
      rw [Function.update_same, Function.update_noteq (Ne.symm hfit)]
      have := hR rc hrc
      linarith
    · rw [Function.update_noteq hpk]
      have hpfi : p.1 ≠ fi := fun h => hfi (h ▸ hG p hpL)
      rw [Function.update_noteq hpfi]
      exact hR p hpL
  · exact move_preserves_ceiling hfit ha hroom hQ

/-- The shared hybrid inner recipient loop preserves the pour invariants and
in particular never lifts a slot above the ceiling. -/
theorem pour_inner_hyb_invariant {mc : ℚ} (G : ℕ → Prop) (dem₀ : ℕ → ℚ) {fi : ℕ}
    (hfi : ¬ G fi) :
    ∀ (remaining k : ℕ) (recips : List (ℕ × ℚ)) (movable : ℚ) (dem : ℕ → ℚ),
      (∀ p ∈ recips, G p.1) →
      recips.Pairwise (fun p q => p.1 ≠ q.1) →
      (∀ p ∈ recips, p.2 ≤ mc - dem p.1) →
      (∀ j, dem₀ j < dem j → dem j ≤ mc) →
      (∀ p ∈ (pour_inner_hyb fi k remaining recips movable dem).1, G p.1) ∧
      (pour_inner_hyb fi k remaining recips movable dem).1.Pairwise
        (fun p q => p.1 ≠ q.1) ∧
      (∀ p ∈ (pour_inner_hyb fi k remaining recips movable dem).1,
        p.2 ≤ mc - (pour_inner_hyb fi k remaining recips movable dem).2 p.1) ∧
      (∀ j, dem₀ j < (pour_inner_hyb fi k remaining recips movable dem).2 j →
        (pour_inner_hyb fi k remaining recips movable dem).2 j ≤ mc) := by
  intro remaining
  induction remaining with
  | zero => intro k recips movable dem hG hnd hR hQ; exact ⟨hG, hnd, hR, hQ⟩
  | succ r ih =>
    intro k recips movable dem hG hnd hR hQ
    rcases hk : recips[k]? with _ | rc
    · simp only [pour_inner_hyb, hk]
      exact ⟨hG, hnd, hR, hQ⟩
    · have hrc_mem : rc ∈ recips := List.getElem?_mem hk
      simp only [pour_inner_hyb, hk]
      split_ifs with h1 h2 h3
      · exact ih _ _ _ _ hG hnd hR hQ
      · exact ih _ _ _ _ hG hnd hR hQ
      · exact hyb_move_pack G dem₀ dem hfi hrc_mem hG hnd hR hQ
          (not_le.mp h2) (min_le_right _ _)
      · obtain ⟨hG', hnd', hR', hQ'⟩ := hyb_move_pack G dem₀ dem hfi hrc_mem hG hnd hR hQ
          (not_le.mp h2) (min_le_right _ _)
        exact ih _ _ _ _ hG' hnd' hR' hQ'

/-- The donor loop of the renewable hybrid pour never lifts a slot above the
ceiling. -/
theorem pour_outer_ren_hyb_ceiling {mc : ℚ} (G : ℕ → Prop) (dem₀ : ℕ → ℚ) (ratio : ℚ) :
    ∀ (donors recips : List (ℕ × ℚ)) (dem : ℕ → ℚ),
      (∀ d ∈ donors, ¬ G d.1) → (∀ p ∈ recips, G p.1) →
      recips.Pairwise (fun p q => p.1 ≠ q.1) →
      (∀ p ∈ recips, p.2 ≤ mc - dem p.1) →
      (∀ j, dem₀ j < dem j → dem j ≤ mc) →
      ∀ j, dem₀ j < (pour_outer_ren_hyb ratio donors recips dem).2 j →
        (pour_outer_ren_hyb ratio donors recips dem).2 j ≤ mc := by
  intro donors
  induction donors with
  | nil => intro recips dem _ _ _ _ hQ; exact hQ
  | cons d rest ih =>
    intro recips dem hdon hG hnd hR hQ
    have hd : ¬ G d.1 := hdon d (List.mem_cons_self _ _)
    have hrest : ∀ x ∈ rest, ¬ G x.1 := fun x hx => hdon x (List.mem_cons_of_mem _ hx)
    simp only [pour_outer_ren_hyb]
    split_ifs with h1
    · exact ih _ _ hrest hG hnd hR hQ
    · obtain ⟨hG', hnd', hR', hQ'⟩ := pour_inner_hyb_invariant G dem₀ hd
        recips.length 0 recips (min d.2 (ratio / 100 * dem d.1)) dem hG hnd hR hQ
      exact ih _ _ hrest hG' hnd' hR' hQ'

/-- The donor loop of the grid-mix hybrid pour never lifts a slot above the
ceiling. -/
theorem pour_outer_grid_hyb_ceiling {mc : ℚ} (G : ℕ → Prop) (dem₀ : ℕ → ℚ) (ratio : ℚ) :
    ∀ (donors recips : List (ℕ × ℚ)) (dem : ℕ → ℚ),
      (∀ d ∈ donors, ¬ G d.1) → (∀ p ∈ recips, G p.1) →
      recips.Pairwise (fun p q => p.1 ≠ q.1) →
      (∀ p ∈ recips, p.2 ≤ mc - dem p.1) →
      (∀ j, dem₀ j < dem j → dem j ≤ mc) →
      ∀ j, dem₀ j < (pour_outer_grid_hyb ratio donors recips dem).2 j →
        (pour_outer_grid_hyb ratio donors recips dem).2 j ≤ mc := by
  intro donors
  induction donors with
  | nil => intro recips dem _ _ _ _ hQ; exact hQ
  | cons d rest ih =>
    intro recips dem hdon hG hnd hR hQ
    have hd : ¬ G d.1 := hdon d (List.mem_cons_self _ _)
    have hrest : ∀ x ∈ rest, ¬ G x.1 := fun x hx => hdon x (List.mem_cons_of_mem _ hx)
    simp only [pour_outer_grid_hyb]
    split_ifs with h1
    · exact ih _ _ hrest hG hnd hR hQ
    · obtain ⟨hG', hnd', hR', hQ'⟩ := pour_inner_hyb_invariant G dem₀ hd
        recips.length 0 recips (ratio / 100 * dem d.1) dem hG hnd hR hQ
      exact ih _ _ hrest hG' hnd' hR' hQ'

/-- Values in `[(j, g j) for j in range(n)]` are determined by their key. -/
theorem snd_of_mem_range_pairs {g : ℕ → ℚ} {n : ℕ} {p : ℕ × ℚ}
    (hp : p ∈ (List.range n).map (fun j => (j, g j))) : p.2 = g p.1 := by
  rw [List.mem_map] at hp
  obtain ⟨j, _, rfl⟩ := hp
  rfl

/-- C2: for every day window, either objective and any threshold cutoff
(hence any threshold-search strategy), no slot that receives workload during
the greedy pour ends above `max_capacity`: every transfer is bounded by the
recipient's remaining headroom — `min (renewable - demand)
(max_capacity - demand)` for the renewable objective, `max_capacity - demand`
for the grid objective — and only positive headroom qualifies a recipient.
A slot received workload iff its demand grew, donors and recipients being
disjoint. -/
theorem pour_respects_ceiling (n : ℕ) (dem ren ci : ℕ → ℚ)
    (flexible_workload_ratio max_capacity thr : ℚ) :
    (∀ j, dem j < (cas_binary_day_pour dem ren n flexible_workload_ratio
          max_capacity thr).1 j →
        (cas_binary_day_pour dem ren n flexible_workload_ratio max_capacity thr).1 j
          ≤ max_capacity) ∧
    (∀ j, dem j < (binary_cas_grid_mix_day_pour dem ci n flexible_workload_ratio
          max_capacity thr).1 j →
        (binary_cas_grid_mix_day_pour dem ci n flexible_workload_ratio
          max_capacity thr).1 j ≤ max_capacity) ∧
    (∀ j, dem j < (cas_hybrid_day_pour dem ren n flexible_workload_ratio
          max_capacity thr).2 j →
        (cas_hybrid_day_pour dem ren n flexible_workload_ratio max_capacity thr).2 j
          ≤ max_capacity) ∧
    (∀ j, dem j < (hybrid_cas_grid_mix_day_pour dem ci n flexible_workload_ratio
          max_capacity thr).2 j →
        (hybrid_cas_grid_mix_day_pour dem ci n flexible_workload_ratio
          max_capacity thr).2 j ≤ max_capacity) := by
  refine ⟨?_, ?_, ?_, ?_⟩
  · simp only [cas_binary_day_pour]
    refine pour_outer_ren_bin_ceiling _ _ _ _ _ dem _ _ dem ?_
      (fun j h => absurd h (lt_irrefl _))
    intro d hd hmem
    rw [mem_insertionSort_iff, List.mem_filter, Bool.not_eq_true'] at hmem
    simp only [List.contains] at hmem
    have h3 := List.elem_iff.mpr hd
    rw [hmem.2] at h3
    exact Bool.noConfusion h3
  · simp only [binary_cas_grid_mix_day_pour]
    refine pour_outer_grid_bin_ceiling _ _ _ _ _ dem _ _ _ dem ?_
      (fun j h => absurd h (lt_irrefl _))
    intro d hd hmem
    obtain ⟨v, hv, hvgt⟩ := mem_of_indicator_filterMap hd
    rw [mem_sort_desc_snd] at hv
    have hv2 : ((d, v) : ℕ × ℚ).2 = ci ((d, v) : ℕ × ℚ).1 := snd_of_mem_range_pairs hv
    rw [mem_insertionSort_iff] at hmem
    obtain ⟨w, hw, hwle⟩ := mem_of_indicator_filterMap hmem
    rw [mem_sort_desc_snd] at hw
    have hw2 : ((d, w) : ℕ × ℚ).2 = ci ((d, w) : ℕ × ℚ).1 := snd_of_mem_range_pairs hw
    dsimp only at hv2 hw2
    rw [hv2] at hvgt
    rw [hw2] at hwle
    exact absurd hwle (not_le.mpr hvgt)
  · simp only [cas_hybrid_day_pour]
    refine pour_outer_ren_hyb_ceiling
      (fun j => ¬ (thr < max 0 (dem j - ren j))) dem _ _ _ dem ?_ ?_ ?_ ?_
      (fun j h => absurd h (lt_irrefl _))
    · intro d hd
      rw [mem_sort_desc_snd, List.mem_filterMap] at hd
      obtain ⟨j, _, hfj⟩ := hd
      split_ifs at hfj with h
      cases hfj
      exact not_not_intro h
    · intro p hp
      rw [mem_sort_desc_snd, List.mem_filterMap] at hp
      obtain ⟨j, _, hfj⟩ := hp
      split_ifs at hfj with h1 h2
      cases hfj
      exact h1
    · unfold sort_desc_snd
      refine (List.Perm.pairwise_iff (fun h => h.symm)
        (List.perm_insertionSort _ _)).mpr ?_
      refine pairwise_keys_filterMap ?_ _ (List.nodup_range n)
      intro j p h
      split_ifs at h
      cases h
      rfl
    · intro p hp
      rw [mem_sort_desc_snd, List.mem_filterMap] at hp
      obtain ⟨j, _, hfj⟩ := hp
      split_ifs at hfj with h1 h2
      cases hfj
      exact min_le_right _ _
  · simp only [hybrid_cas_grid_mix_day_pour]
    refine pour_outer_grid_hyb_ceiling
      (fun j => ¬ (thr < ci j)) dem _ _ _ dem ?_ ?_ ?_ ?_
      (fun j h => absurd h (lt_irrefl _))
    · intro d hd
      rw [mem_sort_desc_snd, List.mem_filterMap] at hd
      obtain ⟨j, _, hfj⟩ := hd
      split_ifs at hfj with h
      cases hfj
      exact not_not_intro h
    · intro p hp
      rw [mem_insertionSort_iff, List.mem_filterMap] at hp
      obtain ⟨j, _, hfj⟩ := hp
      split_ifs at hfj with h1 h2
      cases hfj
      exact h1
    · refine (List.Perm.pairwise_iff (fun h => h.symm)
        (List.perm_insertionSort _ _)).mpr ?_
      refine pairwise_keys_filterMap ?_ _ (List.nodup_range n)
      intro j p h
      split_ifs at h
      cases h
      rfl
    · intro p hp
      rw [mem_insertionSort_iff, List.mem_filterMap] at hp
      obtain ⟨j, _, hfj⟩ := hp
      split_ifs at hfj with h1 h2
      cases hfj
      exact le_refl _

set_option maxRecDepth 100000 in
/-- Witness for C2: in a 2-slot window (demand 120/50, renewable 20/150,
ratio 20, ceiling 150, cutoff 0) slot 1 receives 24 MW and stays below the
ceiling. -/
theorem pour_respects_ceiling_witness :
    (cas_binary_day_pour (fun j => if j = 0 then (120 : ℚ) else 50)
        (fun j => if j = 0 then (20 : ℚ) else 150) 2 20 150 0).1 1 ≤ 150 :=
  (pour_respects_ceiling 2 (fun j => if j = 0 then (120 : ℚ) else 50)
      (fun j => if j = 0 then (20 : ℚ) else 150) (fun _ => 0) 20 150 0).1 1
    (by decide)

/-- Folding min over a list only lowers the accumulator. -/
theorem foldl_min_le_init : ∀ (xs : List ℚ) (x : ℚ), xs.foldl min x ≤ x := by
  intro xs
  induction xs with
  | nil => intro x; exact le_rfl
  | cons y ys ih => intro x; exact le_trans (ih (min x y)) (min_le_left _ _)

/-- Folding max over a list only raises the accumulator. -/
theorem le_foldl_max_init : ∀ (xs : List ℚ) (x : ℚ), x ≤ xs.foldl max x := by
  intro xs
  induction xs with
  | nil => intro x; exact le_rfl
  | cons y ys ih => intro x; exact le_trans (le_max_left _ _) (ih (max x y))

/-- Python min over a list is at most Python max over the same list. -/
theorem list_min_le_list_max : ∀ (l : List ℚ), list_min l ≤ list_max l := by
  intro l
  cases l with
  | nil => exact le_rfl
  | cons x xs =>
    exact le_trans (foldl_min_le_init xs x) (le_foldl_max_init xs x)

/-- The renewable exponential bracketing phase keeps prev_threshold at or
below threshold, with threshold nonnegative. -/
theorem expo_threshold_ren_le (L : List (ℕ × ℚ)) (md tm : ℚ) :
    ∀ (fuel : ℕ) (prev thr : ℚ), prev ≤ thr → 0 ≤ thr →
      (expo_threshold_ren L md tm fuel prev thr).1
        ≤ (expo_threshold_ren L md tm fuel prev thr).2 ∧
      0 ≤ (expo_threshold_ren L md tm fuel prev thr).2 := by
  intro fuel
  induction fuel with
  | zero => intro prev thr h h0; exact ⟨h, h0⟩
  | succ k ih =>
    intro prev thr h h0
    simp only [expo_threshold_ren]
    split_ifs with h1 h2
    · exact ⟨h, h0⟩
    · exact ih thr (thr * 2) (by linarith) (by linarith)
    · exact ⟨h, h0⟩

/-- The grid-mix exponential bracketing phase keeps prev_threshold at or
below threshold, with threshold at or above the day minimum intensity. -/
theorem expo_threshold_grid_le (L : List (ℕ × ℚ)) (dem : ℕ → ℚ) (ratio mn mx tm : ℚ) :
    ∀ (fuel : ℕ) (prev thr : ℚ), prev ≤ thr → mn ≤ thr →
      (expo_threshold_grid L dem ratio mn mx tm fuel prev thr).1
        ≤ (expo_threshold_grid L dem ratio mn mx tm fuel prev thr).2 ∧
      mn ≤ (expo_threshold_grid L dem ratio mn mx tm fuel prev thr).2 := by
  intro fuel
  induction fuel with
  | zero => intro prev thr h h0; exact ⟨h, h0⟩
  | succ k ih =>
    intro prev thr h h0
    simp only [expo_threshold_grid]
    split_ifs with h1 h2
    · exact ⟨h, h0⟩
    · exact ih thr (mn + (thr - mn) * 2) (by linarith) (by linarith)
    · exact ⟨h, h0⟩

/-- The 7-step renewable refinement keeps every reassigned final_threshold
inside the initial bracket; only the 0 initializer can escape it. -/
theorem binary7_ren_bracket (L : List (ℕ × ℚ)) (tm l₀ r₀ : ℚ) :
    ∀ (k : ℕ) (left right final : ℚ),
      l₀ ≤ left → left ≤ right → right ≤ r₀ →
      (final = 0 ∨ (l₀ ≤ final ∧ final ≤ r₀)) →
      ((binary7_ren L tm k left right final).2.2 = 0 ∨
        (l₀ ≤ (binary7_ren L tm k left right final).2.2 ∧
          (binary7_ren L tm k left right final).2.2 ≤ r₀)) := by
  intro k
  induction k with
  | zero => intro left right final _ _ _ h4; exact h4
  | succ m ih =>
    intro left right final h1 h2 h3 h4
    simp only [binary7_ren]
    split_ifs with hc
    · exact ih _ _ _ (by linarith) (by linarith) h3 h4
    · exact ih _ _ _ h1 (by linarith) (by linarith)
        (Or.inr ⟨by linarith, by linarith⟩)

/-- The 7-step grid-mix refinement keeps every reassigned final_threshold
inside the initial bracket; only the 0 initializer can escape it. -/
theorem binary7_grid_bracket (L : List (ℕ × ℚ)) (dem : ℕ → ℚ) (ratio tm l₀ r₀ : ℚ) :
    ∀ (k : ℕ) (left right final : ℚ),
      l₀ ≤ left → left ≤ right → right ≤ r₀ →
      (final = 0 ∨ (l₀ ≤ final ∧ final ≤ r₀)) →
      ((binary7_grid L dem ratio tm k left right final).2.2 = 0 ∨
        (l₀ ≤ (binary7_grid L dem ratio tm k left right final).2.2 ∧
          (binary7_grid L dem ratio tm k left right final).2.2 ≤ r₀)) := by
  intro k
  induction k with
  | zero => intro left right final _ _ _ h4; exact h4
  | succ m ih =>
    intro left right final h1 h2 h3 h4
    simp only [binary7_grid]
    split_ifs with hc
    · exact ih _ _ _ (by linarith) (by linarith) h3 h4
    · exact ih _ _ _ h1 (by linarith) (by linarith)
        (Or.inr ⟨by linarith, by linarith⟩)

set_option maxRecDepth 400000 in
/-- C9 counterexample: a 24-slot day with one deficit slot (demand 2,
renewable 1) and 23 surplus slots of demand 7805/2300 each, ratio 1.  The
exponential phase brackets the cutoff in [0.1, 0.2], but all 7 refinement
midpoints keep the movable volume above the target, so final_threshold keeps
its initializer 0 — outside the bracket established by the bracketing
phase. -/
theorem hybrid_threshold_escapes_bracket :
    cas_hybrid_threshold (fun j => if j = 0 then 2 else 7805/2300)
        (fun j => if j = 0 then 1 else 100) 24 1 8 = (1/10, 1/5, 0) ∧
    ¬ ((1 : ℚ)/10 ≤ 0) := by
  constructor
  · decide
  · norm_num

/-- C9 amended: for both objectives, the hybrid threshold search's final
cutoff lies within the closed interval [prev_threshold, threshold]
established by its own exponential bracketing phase whenever any of the 7
refinement iterations assigns it (movable volume at the midpoint not above
target); otherwise the cutoff is the initializer 0, which may lie outside
the bracket. -/
theorem hybrid_threshold_bracket_or_zero (dem ren ci : ℕ → ℚ) (n : ℕ)
    (flexible_workload_ratio : ℚ) (fuel : ℕ) :
    ((cas_hybrid_threshold dem ren n flexible_workload_ratio fuel).2.2 = 0 ∨
      ((cas_hybrid_threshold dem ren n flexible_workload_ratio fuel).1
          ≤ (cas_hybrid_threshold dem ren n flexible_workload_ratio fuel).2.2 ∧
        (cas_hybrid_threshold dem ren n flexible_workload_ratio fuel).2.2
          ≤ (cas_hybrid_threshold dem ren n flexible_workload_ratio fuel).2.1)) ∧
    ((hybrid_cas_grid_mix_threshold dem ci n flexible_workload_ratio fuel).2.2 = 0 ∨
      ((hybrid_cas_grid_mix_threshold dem ci n flexible_workload_ratio fuel).1
          ≤ (hybrid_cas_grid_mix_threshold dem ci n flexible_workload_ratio fuel).2.2 ∧
        (hybrid_cas_grid_mix_threshold dem ci n flexible_workload_ratio fuel).2.2
          ≤ (hybrid_cas_grid_mix_threshold dem ci n flexible_workload_ratio fuel).2.1)) := by
  constructor
  · simp only [cas_hybrid_threshold]
    obtain ⟨hle, h0⟩ := expo_threshold_ren_le
      (sort_desc_snd (renewable_deficit_list dem ren n))
      (list_max ((sort_desc_snd (renewable_deficit_list dem ren n)).map Prod.snd))
      (((List.range n).map dem).sum * flexible_workload_ratio / 100)
      fuel 0 (1/10) (by norm_num) (by norm_num)
    exact binary7_ren_bracket _ _ _ _ 7 _ _ 0 le_rfl hle le_rfl (Or.inl rfl)
  · simp only [hybrid_cas_grid_mix_threshold]
    set L := sort_desc_snd ((List.range n).map (fun j => (j, ci j))) with hL
    set mn := list_min (L.map Prod.snd) with hmn
    set mx := list_max (L.map Prod.snd) with hmx
    set tm := ((List.range n).map dem).sum * flexible_workload_ratio / 100 with htm
    have hmm : mn ≤ mx := list_min_le_list_max _
    obtain ⟨hle, h0⟩ := expo_threshold_grid_le L dem flexible_workload_ratio mn mx tm
      fuel mn (mn + (mx - mn) * (1/10)) (by linarith) (by linarith)
    exact binary7_grid_bracket L dem flexible_workload_ratio tm _ _ 7 _ _ 0
      le_rfl hle le_rfl (Or.inl rfl)

/-- The bisection loop's upper bound preserves any property implied by
feasibility. -/
theorem bisect_capacity_preserves (feasible : ℚ → Bool) (P : ℚ → Prop)
    (hP : ∀ m, feasible m = true → P m) :
    ∀ (fuel : ℕ) (l u : ℚ), P u → P (bisect_capacity feasible fuel l u).2 := by
  intro fuel
  induction fuel with
  | zero => intro l u h; exact h
  | succ k ih =>
    intro l u h
    simp only [bisect_capacity]
    split_ifs with h1 h2
    · exact ih _ _ (hP _ h2)
    · exact ih _ _ h
    · exact h

set_option maxRecDepth 400000 in
/-- C6 counterexample: for the single-hour series demand 0.95, renewable 0,
max_bound 1, the Battery2 binary search returns the nan sentinel although
max_bound itself is feasible (a full battery of capacity 1 delivers exactly
0.95 over the hour).  The bisection only probes 0, 0.5, 0.75, 0.875 and
0.9375 — all infeasible — so `u` never moves off max_bsize and the sentinel
is returned without max_bound ever being tested. -/
theorem capacity_sentinel_despite_feasible_bound :
    calculate_247_battery_capacity_b2_bin [⟨19/20, 0, 0⟩] 1 10 = none ∧
    sim_battery_247_b2 [⟨19/20, 0, 0⟩] (Battery2.mkDefault 1 1) = true := by
  constructor
  · decide
  · decide

/-- Charging never changes the ideal battery's capacity. -/
theorem Battery.charge_capacity (b : Battery) (x : ℚ) :
    (b.charge x).capacity = b.capacity := by
  simp only [Battery.charge]
  split_ifs <;> rfl

/-- Ideal charging clamps the load at the capacity. -/
theorem Battery.charge_load (b : Battery) (x : ℚ) :
    (b.charge x).current_load = min b.capacity (b.current_load + x) := by
  simp only [Battery.charge]
  split_ifs with h
  · exact (min_eq_left (le_of_lt h)).symm
  · exact (min_eq_right (not_lt.mp h)).symm

/-- Discharging never changes the ideal battery's capacity. -/
theorem Battery.discharge_capacity (b : Battery) (x : ℚ) :
    (b.discharge x).2.capacity = b.capacity := by
  simp only [Battery.discharge]
  split_ifs <;> rfl

/-- Ideal discharging clamps the load at zero. -/
theorem Battery.discharge_load (b : Battery) (x : ℚ) :
    (b.discharge x).2.current_load = max 0 (b.current_load - x) := by
  simp only [Battery.discharge]
  split_ifs with h
  · exact (max_eq_left (le_of_lt h)).symm
  · exact (max_eq_right (not_lt.mp h)).symm

/-- The ideal battery delivers the requested amount or its whole load. -/
theorem Battery.discharge_delivered (b : Battery) (x : ℚ) :
    (b.discharge x).1 = min x b.current_load := by
  simp only [Battery.discharge]
  split_ifs with h
  · have hlx : b.current_load ≤ x := by linarith
    rw [min_eq_right hlx]
    show x + (b.current_load - x) = b.current_load
    ring
  · have hxl : x ≤ b.current_load := by
      have := not_lt.mp h
      linarith
    rw [min_eq_left hxl]

/-- State dominance for the ideal micro-step loop: a battery with more
capacity and more load delivers at least as much over the hour and ends with
at least as much load. -/
theorem sim_hour_b1_mono (x : ℚ) :
    ∀ (m : ℕ) (b₁ b₂ : Battery) (acc₁ acc₂ : ℚ),
      b₁.capacity ≤ b₂.capacity → b₁.current_load ≤ b₂.current_load → acc₁ ≤ acc₂ →
      (sim_hour_b1 m b₁ x acc₁).1 ≤ (sim_hour_b1 m b₂ x acc₂).1 ∧
      (sim_hour_b1 m b₁ x acc₁).2.capacity ≤ (sim_hour_b1 m b₂ x acc₂).2.capacity ∧
      (sim_hour_b1 m b₁ x acc₁).2.current_load
        ≤ (sim_hour_b1 m b₂ x acc₂).2.current_load := by
  intro m
  induction m with
  | zero => exact fun b₁ b₂ a₁ a₂ hc hl ha => ⟨ha, hc, hl⟩
  | succ k ih =>
    intro b₁ b₂ a₁ a₂ hc hl ha
    simp only [sim_hour_b1]
    split_ifs with hx
    · refine ih _ _ _ _ ?_ ?_ ha
      · rw [Battery.charge_capacity, Battery.charge_capacity]
        exact hc
      · rw [Battery.charge_load, Battery.charge_load]
        exact min_le_min hc (add_le_add_right hl x)
    · refine ih _ _ _ _ ?_ ?_ ?_
      · rw [Battery.discharge_capacity, Battery.discharge_capacity]
        exact hc
      · rw [Battery.discharge_load, Battery.discharge_load]
        exact max_le_max le_rfl (sub_le_sub_right hl _)
      · rw [Battery.discharge_delivered, Battery.discharge_delivered]
        exact add_le_add ha (min_le_min le_rfl hl)

/-- State dominance for the ideal feasibility oracle: if the smaller battery
passes the whole series, so does any battery dominating it. -/
theorem sim_battery_247_b1_mono :
    ∀ (df : List Row) (b₁ b₂ : Battery),
      b₁.capacity ≤ b₂.capacity → b₁.current_load ≤ b₂.current_load →
      sim_battery_247_b1 df b₁ = true → sim_battery_247_b1 df b₂ = true := by
  intro df
  induction df with
  | nil => intro _ _ _ _ _; rfl
  | cons r rest ih =>
    intro b₁ b₂ hc hl hsim
    obtain ⟨hd, hcc, hll⟩ := sim_hour_b1_mono (r.tot_renewable - r.avg_dc_power_mw)
      60 b₁ b₂ 0 0 hc hl le_rfl
    simp only [sim_battery_247_b1] at hsim ⊢
    split_ifs at hsim with h1
    split_ifs with h2
    · exact absurd ⟨h2.1, lt_of_le_of_lt hd h2.2⟩ h1
    · exact ih _ _ hcc hll hsim


/-- When every capacity at or below the upper bound is infeasible, the
bisection never moves its upper bound. -/
theorem bisect_capacity_stays_max (feasible : ℚ → Bool) (mx : ℚ)
    (hall : ∀ m, m ≤ mx → feasible m = false) :
    ∀ (fuel : ℕ) (l : ℚ), l ≤ mx → (bisect_capacity feasible fuel l mx).2 = mx := by
  intro fuel
  induction fuel with
  | zero => intro l _; rfl
  | succ k ih =>
    intro l hl
    simp only [bisect_capacity]
    split_ifs with h1 h2
    · have hmed : (mx + l) / 2 ≤ mx := by linarith
      rw [hall _ hmed] at h2
      exact Bool.noConfusion h2
    · exact ih _ (by linarith)
    · rfl

/-- C6 amended: a numeric return from any of the four capacity searches is
itself a feasible capacity for the oracle (never a numeric value that failed
it, and never an exception); and for the ideal battery model, the sentinel is
returned whenever a nonnegative max_bound is infeasible.  The original
"exactly when" fails in the other direction: the sentinel can also be
returned when max_bound is feasible, because the bisection never tests
max_bound itself (see the counterexample). -/
theorem capacity_search_sentinel_semantics (df_ren_dc : List Row) (max_bsize : ℚ)
    (fuel : ℕ) :
    (∀ c, calculate_247_battery_capacity_b1_bin df_ren_dc max_bsize fuel = some c →
      sim_battery_247_b1 df_ren_dc ⟨c, c⟩ = true) ∧
    (∀ c, calculate_247_battery_capacity_b2_bin df_ren_dc max_bsize fuel = some c →
      sim_battery_247_b2 df_ren_dc (Battery2.mkDefault c c) = true) ∧
    (∀ c, calculate_247_battery_capacity_b1_hybrid df_ren_dc max_bsize fuel = some c →
      sim_battery_247_b1 df_ren_dc ⟨c, c⟩ = true) ∧
    (∀ c, calculate_247_battery_capacity_b2_hybrid df_ren_dc max_bsize fuel = some c →
      sim_battery_247_b2 df_ren_dc (Battery2.mkDefault c c) = true) ∧
    (sim_battery_247_b1 df_ren_dc ⟨max_bsize, max_bsize⟩ = false → 0 ≤ max_bsize →
      calculate_247_battery_capacity_b1_bin df_ren_dc max_bsize fuel = none) ∧
    (sim_battery_247_b1 df_ren_dc ⟨max_bsize, max_bsize⟩ = false → 0 ≤ max_bsize →
      calculate_247_battery_capacity_b1_hybrid df_ren_dc max_bsize fuel = none) := by
  have hforward : sim_battery_247_b1 df_ren_dc ⟨max_bsize, max_bsize⟩ = false →
      ∀ m, m ≤ max_bsize → sim_battery_247_b1 df_ren_dc ⟨m, m⟩ = false := by
    intro hmaxinf m hm
    cases hb : sim_battery_247_b1 df_ren_dc ⟨m, m⟩
    · rfl
    · have := sim_battery_247_b1_mono df_ren_dc ⟨m, m⟩ ⟨max_bsize, max_bsize⟩ hm hm hb
      rw [hmaxinf] at this
      exact Bool.noConfusion this
  refine ⟨?_, ?_, ?_, ?_, ?_, ?_⟩
  · intro c h
    simp only [calculate_247_battery_capacity_b1_bin] at h
    split_ifs at h with h0 hmax
    · cases h
      exact h0
    · cases h
      rcases bisect_capacity_preserves _
          (fun u => u = max_bsize ∨ sim_battery_247_b1 df_ren_dc ⟨u, u⟩ = true)
          (fun m hm => Or.inr hm) fuel 0 max_bsize (Or.inl rfl) with h1 | h1
      · exact absurd h1 hmax
      · exact h1
  · intro c h
    simp only [calculate_247_battery_capacity_b2_bin] at h
    split_ifs at h with h0 hmax
    · cases h
      exact h0
    · cases h
      rcases bisect_capacity_preserves _
          (fun u => u = max_bsize ∨
            sim_battery_247_b2 df_ren_dc (Battery2.mkDefault u u) = true)
          (fun m hm => Or.inr hm) fuel 0 max_bsize (Or.inl rfl) with h1 | h1
      · exact absurd h1 hmax
      · exact h1
  · intro c h
    simp only [calculate_247_battery_capacity_b1_hybrid] at h
    split_ifs at h with h0 h1 h2 h3
    all_goals first
      | (cases h; exact h0)
      | (exact Option.noConfusion h)
      | (cases h
         exact bisect_capacity_preserves _
           (fun u => sim_battery_247_b1 df_ren_dc ⟨u, u⟩ = true)
           (fun m hm => hm) fuel _ _ (by assumption))
  · intro c h
    simp only [calculate_247_battery_capacity_b2_hybrid] at h
    split_ifs at h with h0 h1 h2 h3
    all_goals first
      | (cases h; exact h0)
      | (exact Option.noConfusion h)
      | (cases h
         exact bisect_capacity_preserves _
           (fun u => sim_battery_247_b2 df_ren_dc (Battery2.mkDefault u u) = true)
           (fun m hm => hm) fuel _ _ (by assumption))
  · intro hmaxinf h0max
    have hall := hforward hmaxinf
    have h0 : ¬ sim_battery_247_b1 df_ren_dc ⟨0, 0⟩ = true := by
      rw [hall 0 h0max]
      exact Bool.noConfusion
    simp only [calculate_247_battery_capacity_b1_bin]
    rw [if_neg h0, bisect_capacity_stays_max _ _ hall fuel 0 h0max, if_pos rfl]
  · intro hmaxinf h0max
    have hall := hforward hmaxinf
    have h0 : ¬ sim_battery_247_b1 df_ren_dc ⟨0, 0⟩ = true := by
      rw [hall 0 h0max]
      exact Bool.noConfusion
    simp only [calculate_247_battery_capacity_b1_hybrid]
    rw [if_neg h0]
    set ub : ℚ := (if max_bsize < (expo_capacity
          (fun c => sim_battery_247_b1 df_ren_dc ⟨c, c⟩) max_bsize fuel 0 2).2
        then max_bsize
        else (expo_capacity
          (fun c => sim_battery_247_b1 df_ren_dc ⟨c, c⟩) max_bsize fuel 0 2).2)
      with hubdef
    have hub : ub ≤ max_bsize := by
      rw [hubdef]
      split_ifs with h
      · exact le_rfl
      · exact le_of_not_lt h
    have hubinf : ¬ sim_battery_247_b1 df_ren_dc ⟨ub, ub⟩ = true := by
      rw [hall _ hub]
      exact Bool.noConfusion
    rw [if_pos hubinf]

set_option maxRecDepth 400000 in
/-- Witness for C6 amended: on a one-hour series fully covered by renewables
all searches return the feasible capacity 0; on a one-hour deficit series
with an infeasible nonnegative max_bound 0.05, the ideal binary and hybrid
searches return the sentinel. -/
theorem capacity_search_sentinel_semantics_witness :
    sim_battery_247_b1 [⟨1, 2, 0⟩] ⟨0, 0⟩ = true ∧
    sim_battery_247_b2 [⟨1, 2, 0⟩] (Battery2.mkDefault 0 0) = true ∧
    calculate_247_battery_capacity_b1_bin [⟨1, 0, 0⟩] (1/20) 5 = none ∧
    calculate_247_battery_capacity_b1_hybrid [⟨1, 0, 0⟩] (1/20) 5 = none :=
  ⟨(capacity_search_sentinel_semantics [⟨1, 2, 0⟩] 100 20).1 0 (by decide),
    (capacity_search_sentinel_semantics [⟨1, 2, 0⟩] 100 20).2.1 0 (by decide),
    (capacity_search_sentinel_semantics [⟨1, 0, 0⟩] (1/20) 5).2.2.2.2.1
      (by decide) (by norm_num),
    (capacity_search_sentinel_semantics [⟨1, 0, 0⟩] (1/20) 5).2.2.2.2.2
      (by decide) (by norm_num)⟩
